import Mathlib

set_option maxRecDepth 100000

set_option linter.unusedVariables false

/-!
# Verification of the LZ77 prefix-match engine (`lz77.go`)

Shallow embedding of the `LZ77` window/buffer engine from `lz77.go`
(package `buffer`).  Bytes are modelled as `Nat` values below 256 and the
Go `uint32` indices as `Nat`.  On every state reachable through the public
API the indices stay far below `2^32` (the byte region holds at most
`2^30 + 2^31` bytes and `h ≤ i ≤ j ≤ len(slice)`), so Go's wrapping
`uint32` arithmetic coincides with `Nat` arithmetic with truncated
subtraction at every subtraction site reachable in those states; the
32-bit hash mixers, whose multiplications do wrap, are modelled with an
explicit `% 2^32`.

Go slices become `List Nat`; `copy` into a subslice becomes `copySlice`,
`bzero` becomes `zeroRange`, and out-of-range reads use default `0`
(`lget`), mirroring the in-range behaviour of the source (the source
panics out of range; all accesses proved relevant here are in range).
-/

namespace LZ

/-- Read a list element, defaulting to `0` out of range (Go accesses are
in range wherever our theorems depend on them). -/
def lget (l : List Nat) (n : Nat) : Nat := l.getD n 0

/-- Overwrite the elements of `l` starting at offset `a` with `src`,
truncated so the result keeps the length of `l` (Go `copy` semantics for
an exactly-sized destination subslice). -/
def listWrite (l : List Nat) (a : Nat) (src : List Nat) : List Nat :=
  l.take a ++ src.take (l.length - a) ++ l.drop (a + src.length)

/-- Go `copy(l[a:b], src)`: writes `min (b-a) src.length` bytes at `a`. -/
def copySlice (l : List Nat) (a b : Nat) (src : List Nat) : List Nat :=
  listWrite l a (src.take (b - a))

/-- Go `bzero` over the subslice `l[a:b]`. -/
def zeroRange (l : List Nat) (a b : Nat) : List Nat :=
  listWrite l a (List.replicate (b - a) 0)

/-- `const hashLen = 4` -/
def hashLen : Nat := 4

/-- `const hashLenSubOne = hashLen - 1` -/
def hashLenSubOne : Nat := hashLen - 1

/-- 2^32, the modulus of Go `uint32` arithmetic. -/
def U32 : Nat := 4294967296

/-- Wrapping 32-bit multiplication. -/
def mul32 (a b : Nat) : Nat := (a * b) % U32

/-- `bits.RotateLeft32` on a value already below `2^32`. -/
def rotl32 (x : Nat) (s : Nat) : Nat :=
  ((x <<< s) % U32) ||| (x >>> (32 - s))

/-- `hash4` from the current engine (`lz77.go`): big-endian pack of the
first four bytes of `slice`, then a rotate-and-xor mix of two wrapping
multiplications, masked by `hashMask`. -/
def hash4 (slice : List Nat) (hashMask : Nat) : Nat :=
  let c1 : Nat := 0xcc9e2d51
  let c2 : Nat := 0x1b873593
  let u32 : Nat :=
    (lget slice 0 <<< 24) ||| (lget slice 1 <<< 16) ||| (lget slice 2 <<< 8) ||| lget slice 3
  (rotl32 (mul32 u32 c1) 17 ^^^ rotl32 (mul32 u32 c2) 19) &&& hashMask

/-- `bits.RotateLeft32(x, -shift)` — the earlier engine's `rotate32`
rotates right. -/
def rotr32 (x : Nat) (s : Nat) : Nat :=
  ((x <<< (32 - s)) % U32) ||| (x >>> s)

/-- Go `uint32(int32(int8(b)))` for a byte `b`: sign extension mod 2^32. -/
def sext8 (b : Nat) : Nat := if b < 128 then b else b + (U32 - 256)

/-- 32-bit wrapping addition. -/
def add32 (a b : Nat) : Nat := (a + b) % U32

/-- `mur` from the earlier CityHash32-based `hash4` variant. -/
def mur (a h : Nat) : Nat :=
  let c1 : Nat := 0xcc9e2d51
  let c2 : Nat := 0x1b873593
  let a1 := mul32 a c1
  let a2 := rotr32 a1 17
  let a3 := mul32 a2 c2
  let h1 := h ^^^ a3
  let h2 := rotr32 h1 19
  add32 (mul32 h2 5) c2

/-- `fmix` from the earlier CityHash32-based `hash4` variant. -/
def fmix (h : Nat) : Nat :=
  let h1 := h ^^^ (h >>> 16)
  let h2 := mul32 h1 0x85ebca6b
  let h3 := h2 ^^^ (h2 >>> 13)
  let h4 := mul32 h3 0xc2b2ae35
  h4 ^^^ (h4 >>> 16)

/-- The earlier engine's `hash4` (loosely based on CityHash32): the
alternative four-byte mixer referenced by the spec's note. -/
def hash4B (slice : List Nat) (hashMask : Nat) : Nat :=
  let c1 : Nat := 0xcc9e2d51
  let b0 := lget slice 0
  let c0 := 9 ^^^ b0
  let b1 := add32 (mul32 b0 c1) (sext8 (lget slice 1))
  let c1' := c0 ^^^ b1
  let b2 := add32 (mul32 b1 c1) (sext8 (lget slice 2))
  let c2' := c1' ^^^ b2
  let b3 := add32 (mul32 b2 c1) (sext8 (lget slice 3))
  let c3' := c2' ^^^ b3
  fmix (mur b3 (mur 4 c3')) &&& hashMask

/-- The `LZ77` struct: byte region, the two hash-chain arrays, the three
indices `h ≤ i ≤ j` and the (post-normalization) configuration. -/
structure LZ77 where
  slice : List Nat
  htLastByHash : List Nat
  htPrevByIndex : List Nat
  h : Nat
  i : Nat
  j : Nat
  bsize : Nat
  wsize : Nat
  hashMask : Nat
  minLen : Nat
  maxLen : Nat
  maxDist : Nat
  bbits : Nat
  wbits : Nat
  hbits : Nat
  deriving Repr, DecidableEq

/-- `LZ77Options`. -/
structure LZ77Options where
  BufferNumBits : Nat
  WindowNumBits : Nat
  HashNumBits : Nat
  MinMatchLength : Nat
  MaxMatchLength : Nat
  MaxMatchDistance : Nat
  HasMinMatchLength : Bool
  HasMaxMatchLength : Bool
  HasMaxMatchDistance : Bool
  deriving Repr, DecidableEq

/-- The configuration normalization performed by `Init`, yielding
`(minLen, maxLen, maxDist, hbits)`. -/
def normConfig (o : LZ77Options) : Nat × Nat × Nat × Nat :=
  let bsize := 1 <<< o.BufferNumBits
  let wsize := 1 <<< o.WindowNumBits
  let maxLen := if o.HasMaxMatchLength then min o.MaxMatchLength bsize else bsize
  let minLen := if o.HasMinMatchLength then o.MinMatchLength else hashLen
  let maxDist := if o.HasMaxMatchDistance then min o.MaxMatchDistance wsize else wsize
  let (minLen, maxLen, maxDist, hbits) :=
    if maxLen = 0 ∨ maxDist = 0 then (0, 0, 0, 0)
    else (minLen, maxLen, maxDist, o.HashNumBits)
  let minLen := if minLen = 0 ∧ maxLen ≠ 0 then 1 else minLen
  let hbits := if minLen < hashLen then 0 else hbits
  (minLen, maxLen, maxDist, hbits)

/-- The assertion preconditions of `Init` (`assert.Assertf` / `Raisef`):
violating them aborts the Go process, so reachable states satisfy them. -/
def InitOK (o : LZ77Options) : Prop :=
  2 ≤ o.BufferNumBits ∧ o.BufferNumBits ≤ 30 ∧ o.WindowNumBits ≤ 30 ∧
  o.HashNumBits ≤ 32 ∧
  (o.HasMinMatchLength = true → o.MinMatchLength ≤ 1 <<< o.BufferNumBits) ∧
  (normConfig o).1 ≤ (normConfig o).2.1

instance (o : LZ77Options) : Decidable (InitOK o) := by
  unfold InitOK; infer_instance

/-- `hashMask` as computed by `Init`: `(1 << hbits) - 1`, or all ones
when `hbits = 32`. -/
def initHashMask (hbits : Nat) : Nat :=
  if hbits < 32 then (1 <<< hbits) - 1 else U32 - 1

/-- `Init`. -/
def Init (o : LZ77Options) : LZ77 :=
  let bsize := 1 <<< o.BufferNumBits
  let wsize := 1 <<< o.WindowNumBits
  let (minLen, maxLen, maxDist, hbits) := normConfig o
  let hashMask := initHashMask hbits
  { slice := List.replicate (wsize + bsize * 2) 0
    htLastByHash := if hbits ≠ 0 then List.replicate (1 <<< hbits) 0 else []
    htPrevByIndex := if hbits ≠ 0 then List.replicate (wsize + bsize * 2) 0 else []
    h := wsize
    i := wsize
    j := wsize
    bsize := bsize
    wsize := wsize
    hashMask := hashMask
    minLen := minLen
    maxLen := maxLen
    maxDist := maxDist
    bbits := o.BufferNumBits
    wbits := o.WindowNumBits
    hbits := hbits }

/-- `WindowBytesView`. -/
def WindowBytesView (st : LZ77) : List Nat := (st.slice.drop st.h).take (st.i - st.h)

/-- `BufferBytesView`. -/
def BufferBytesView (st : LZ77) : List Nat := (st.slice.drop st.i).take (st.j - st.i)

/-- `WindowLen`. -/
def WindowLen (st : LZ77) : Nat := st.i - st.h

/-- `Len`. -/
def bufLen (st : LZ77) : Nat := st.j - st.i

/-- `shift`: repack the live bytes `[h, j)` so that `i` returns to
`wsize`, when appending `n` bytes would overrun the region; translate the
hash-chain arrays as the source does. -/
def shift (st : LZ77) (n : Nat) : LZ77 :=
  let wsize := st.wsize
  let h := st.h
  let i := st.i
  let j := st.j
  let k := j + n
  if k ≤ st.slice.length then st
  else
    let windowLen := i - h
    let bufferLen := j - i
    let iPrime := wsize
    let hPrime := iPrime - windowLen
    let jPrime := iPrime + bufferLen
    let slice1 := copySlice st.slice hPrime jPrime ((st.slice.drop h).take (j - h))
    let slice2 := zeroRange slice1 0 hPrime
    let slice3 := zeroRange slice2 jPrime slice2.length
    let st1 := { st with slice := slice3, h := hPrime, i := iPrime, j := jPrime }
    if st.htLastByHash.isEmpty then st1
    else
      let delta := h - hPrime
      let last' := st.htLastByHash.map fun lastPlusOne =>
        if h < lastPlusOne ∧ lastPlusOne ≤ i then lastPlusOne - delta else 0
      let prev1 := zeroRange st.htPrevByIndex 0 hPrime
      let prev2 := shiftPrevLoop prev1 h i delta (iPrime - hPrime) hPrime
      let prev3 := zeroRange prev2 iPrime prev2.length
      { st1 with htLastByHash := last', htPrevByIndex := prev3 }
where
  /-- The in-place remap loop over `htPrevByIndex[hPrime:iPrime]`. -/
  shiftPrevLoop (prev : List Nat) (h i delta : Nat) : Nat → Nat → List Nat
    | 0, _ => prev
    | fuel + 1, index =>
      let prevPlusOne := lget prev index
      let v := if h < prevPlusOne ∧ prevPlusOne ≤ i then prevPlusOne - delta else 0
      shiftPrevLoop (prev.set index v) h i delta fuel (index + 1)

/-- The insertion loop of `windowUpdateRegion`, from `index` up to
`stop`.  The explicit `fuel` argument only makes the recursion
structural; the caller passes `stop - index`, which the `index < stop`
guard never exhausts early, so the function is the Go `for` loop. -/
def windowUpdateRegionLoop (hf : List Nat → Nat → Nat) :
    Nat → Nat → LZ77 → Nat → LZ77
  | 0, _, st, _ => st
  | fuel + 1, stop, st, index =>
    if index < stop then
      let hsh := hf ((st.slice.drop index).take hashLen) st.hashMask
      let prevPlusOne := lget st.htLastByHash hsh
      let st' := { st with
        htLastByHash := st.htLastByHash.set hsh (index + 1)
        htPrevByIndex := st.htPrevByIndex.set index prevPlusOne }
      windowUpdateRegionLoop hf fuel stop st' (index + 1)
    else st

/-- `windowUpdateRegion(index)`: insert every position of
`[max index h, min i (j - 3))` into its hash chain. -/
def windowUpdateRegionH (hf : List Nat → Nat → Nat) (st : LZ77) (index : Nat) : LZ77 :=
  if st.htLastByHash.isEmpty then st
  else
    let index := if index < st.h then st.h else index
    let stop0 := st.j - hashLenSubOne
    let stop := if stop0 > st.i then st.i else stop0
    windowUpdateRegionLoop hf (stop - index) stop st index

/-- `Clear`. -/
def Clear (st : LZ77) : LZ77 :=
  { st with
    h := st.wsize, i := st.wsize, j := st.wsize
    slice := List.replicate st.slice.length 0
    htLastByHash := List.replicate st.htLastByHash.length 0
    htPrevByIndex := List.replicate st.htPrevByIndex.length 0 }

/-- `WindowClear`. -/
def WindowClear (st : LZ77) : LZ77 :=
  { st with
    h := st.i
    slice := zeroRange st.slice 0 st.i
    htLastByHash := List.replicate st.htLastByHash.length 0
    htPrevByIndex := List.replicate st.htPrevByIndex.length 0 }

/-- `SetWindow(data)`. -/
def SetWindowH (hf : List Nat → Nat → Nat) (st : LZ77) (data : List Nat) : LZ77 :=
  let length := data.length
  let (data, length) :=
    if length > st.maxDist then (data.drop (length - st.maxDist), st.maxDist)
    else (data, length)
  let i := st.i
  let h := i - length
  let st1 := { st with
    h := h
    slice := copySlice (zeroRange st.slice 0 h) h i data
    htLastByHash := List.replicate st.htLastByHash.length 0
    htPrevByIndex := List.replicate st.htPrevByIndex.length 0 }
  windowUpdateRegionH hf st1 h

/-- `PrepareBulkWrite(length)`: returns the writable view and the
(possibly shifted) state. -/
def PrepareBulkWrite (st : LZ77) (length : Nat) : List Nat × LZ77 :=
  let x := st.j - st.i
  let y := st.bsize - x
  let length := if length > y then y else length
  let st1 := shift st length
  ((st1.slice.drop st1.j).take length, st1)

/-- `CommitBulkWrite(length)`; the caller guarantees
`length ≤ bsize - (j - i)` (asserted by the source). -/
def CommitBulkWriteH (hf : List Nat → Nat → Nat) (st : LZ77) (length : Nat) : LZ77 :=
  let j := st.j
  windowUpdateRegionH hf { st with j := j + length } (j - hashLenSubOne)

/-- `WriteByte(ch)`: returns `true` in place of `ErrFull`. -/
def WriteByteH (hf : List Nat → Nat → Nat) (st : LZ77) (ch : Nat) : Bool × LZ77 :=
  let x := st.j - st.i
  let y := st.bsize - x
  if y = 0 then (true, st)
  else
    let st1 := shift st 1
    let j := st1.j
    let st2 := { st1 with slice := st1.slice.set j ch, j := j + 1 }
    (false, windowUpdateRegionH hf st2 (j - hashLenSubOne))

/-- `Write(data)`: returns `(count, full?)` and the new state. -/
def WriteH (hf : List Nat → Nat → Nat) (st : LZ77) (data : List Nat) : (Nat × Bool) × LZ77 :=
  let x := st.j - st.i
  let y := st.bsize - x
  let length := data.length
  let (length, data, err) :=
    if length > y then (y, data.take y, true) else (length, data, false)
  let st1 := shift st length
  let j := st1.j
  let jPrime := j + length
  let st2 := { st1 with slice := copySlice st1.slice j jPrime data, j := jPrime }
  ((length, err), windowUpdateRegionH hf st2 (j - hashLenSubOne))

/-- `PrepareBulkRead(length)` (non-mutating). -/
def PrepareBulkRead (st : LZ77) (length : Nat) : List Nat :=
  let length := if length > st.bsize then st.bsize else length
  let iPrime := min (st.i + length) st.j
  (st.slice.drop st.i).take (iPrime - st.i)

/-- `CommitBulkRead(length)`; the caller guarantees
`min length bsize ≤ j - i` (asserted by the source). -/
def CommitBulkReadH (hf : List Nat → Nat → Nat) (st : LZ77) (length : Nat) : LZ77 :=
  let length := if length > st.bsize then st.bsize else length
  let i := st.i
  let iPrime := i + length
  let hMin := iPrime - st.maxDist
  let hPrime := if st.h < hMin then hMin else st.h
  windowUpdateRegionH hf { st with h := hPrime, i := iPrime } i

/-- `ReadByte`: returns `(byte, empty?)` and the new state. -/
def ReadByteH (hf : List Nat → Nat → Nat) (st : LZ77) : (Nat × Bool) × LZ77 :=
  let i := st.i
  let iPrime := i + 1
  if iPrime > st.j then ((0, true), st)
  else
    let hMin := iPrime - st.maxDist
    let hPrime := if st.h < hMin then hMin else st.h
    let ch := lget st.slice i
    ((ch, false), windowUpdateRegionH hf { st with h := hPrime, i := iPrime } i)

/-- `Read(data)` with `data` of length `n`: returns
`(bytes, count, empty?)` and the new state. -/
def ReadH (hf : List Nat → Nat → Nat) (st : LZ77) (n : Nat) :
    (List Nat × Nat × Bool) × LZ77 :=
  if n = 0 then (([], 0, false), st)
  else
    let length := if n > st.bsize then st.bsize else n
    let i := st.i
    let iPrime0 := i + length
    let iPrime := if iPrime0 > st.j then st.j else iPrime0
    let length := iPrime - i
    if length = 0 then (([], 0, true), st)
    else
      let hMin := iPrime - st.maxDist
      let hPrime := if st.h < hMin then hMin else st.h
      let out := (st.slice.drop i).take (iPrime - i)
      ((out, length, false), windowUpdateRegionH hf { st with h := hPrime, i := iPrime } i)

/-- The best-match accumulator threaded through `advanceCheckMatch`. -/
structure MatchSt where
  found : Bool
  distance : Nat
  length : Nat
  deriving Repr, DecidableEq

/-- The byte-comparison loop inside `advanceCheckMatch`.  `fuel` makes
the recursion structural; the caller passes `maxLen`, which the
`index < maxLen` guard never exhausts early (the loop starts at
`index = 0`), so the function is the Go `for` loop. -/
def advanceCheckMatchLoop (st : LZ77) (curr maxLen : Nat) :
    Nat → Nat → MatchSt → MatchSt
  | 0, _, best => best
  | fuel + 1, index, best =>
    if index < maxLen ∧ lget st.slice (curr + index) = lget st.slice (st.i + index) then
      let lenSoFar := index + 1
      let best' :=
        if st.minLen ≤ lenSoFar ∧ (best.found = false ∨ best.length < lenSoFar) then
          { found := true, distance := st.i - curr, length := lenSoFar }
        else best
      advanceCheckMatchLoop st curr maxLen fuel (index + 1) best'
    else best

/-- `advanceCheckMatch(curr, maxLen, ...)`: returns the updated best
match and the early-termination flag. -/
def advanceCheckMatch (st : LZ77) (curr maxLen : Nat) (best : MatchSt) : MatchSt × Bool :=
  if best.found = true ∧ lget st.slice (curr + best.length) ≠ lget st.slice (st.i + best.length) then
    (best, false)
  else
    let best' := advanceCheckMatchLoop st curr maxLen maxLen 0 best
    (best', best'.found && decide (maxLen ≤ best'.length))

/-- The hash-chain walk of `advanceStandard`: follow `htPrevByIndex`
while the position stays above `h` and strictly decreases.  `fuel` makes
the recursion structural; the caller passes the initial `lastPlusOne`,
which bounds the iteration count because `lastPlusOne` strictly
decreases, so the function is the Go `for` loop. -/
def stdWalk (st : LZ77) (maxLen : Nat) : Nat → Nat → Nat → MatchSt → MatchSt
  | 0, _, _, best => best
  | fuel + 1, lastPlusOne, currPlusOne, best =>
    if st.h < currPlusOne ∧ currPlusOne < lastPlusOne then
      let curr := currPlusOne - 1
      let r := advanceCheckMatch st curr maxLen best
      if r.2 then r.1
      else stdWalk st maxLen fuel currPlusOne (lget st.htPrevByIndex curr) r.1
    else best

/-- The linear window scan of `advanceNoHash`, from `curr - 1` down to
`h`.  `fuel` makes the recursion structural; the caller passes the
initial `curr`, which bounds the iteration count, so the function is the
Go `for` loop. -/
def noHashWalk (st : LZ77) (maxLen : Nat) : Nat → Nat → MatchSt → MatchSt
  | 0, _, best => best
  | fuel + 1, curr, best =>
    if st.h < curr then
      let curr' := curr - 1
      let r := advanceCheckMatch st curr' maxLen best
      if r.2 then r.1
      else noHashWalk st maxLen fuel curr' r.1
    else best

/-- `advanceByte` (literal-only mode). -/
def advanceByteH (hf : List Nat → Nat → Nat) (st : LZ77) :
    (List Nat × Nat × Nat × Bool) × LZ77 :=
  let i := st.i
  let iPrime := i + 1
  if iPrime > st.j then (([], 0, 0, false), st)
  else
    let hMin := iPrime - st.maxDist
    let hPrime := if st.h < hMin then hMin else st.h
    let buf := (st.slice.drop i).take (iPrime - i)
    ((buf, 0, 0, false), windowUpdateRegionH hf { st with h := hPrime, i := iPrime } i)

/-- `advanceNoHash` (match search without a hash table). -/
def advanceNoHashH (hf : List Nat → Nat → Nat) (st : LZ77) :
    (List Nat × Nat × Nat × Bool) × LZ77 :=
  let i := st.i
  let j := st.j
  if i + 1 > j then (([], 0, 0, false), st)
  else
    let maxLen := if st.maxLen > j - i then j - i else st.maxLen
    let best :=
      if st.minLen ≤ maxLen then noHashWalk st maxLen i i ⟨false, 0, 0⟩
      else (⟨false, 0, 0⟩ : MatchSt)
    let iPrime := if best.found then i + best.length else i + 1
    let hMin := iPrime - st.maxDist
    let hPrime := if st.h < hMin then hMin else st.h
    let buf := (st.slice.drop i).take (iPrime - i)
    ((buf, if best.found then best.distance else 0,
      if best.found then best.length else 0, best.found),
     windowUpdateRegionH hf { st with h := hPrime, i := iPrime } i)

/-- `advanceStandard` (hash-chain match search). -/
def advanceStandardH (hf : List Nat → Nat → Nat) (st : LZ77) :
    (List Nat × Nat × Nat × Bool) × LZ77 :=
  let i := st.i
  let j := st.j
  if i + 1 > j then (([], 0, 0, false), st)
  else
    let maxLen := if st.maxLen > j - i then j - i else st.maxLen
    let best :=
      if st.minLen ≤ maxLen then
        let hsh := hf ((st.slice.drop i).take hashLen) st.hashMask
        stdWalk st maxLen (i + 1) (i + 1) (lget st.htLastByHash hsh) ⟨false, 0, 0⟩
      else (⟨false, 0, 0⟩ : MatchSt)
    let iPrime := if best.found then i + best.length else i + 1
    let hMin := iPrime - st.maxDist
    let hPrime := if st.h < hMin then hMin else st.h
    let buf := (st.slice.drop i).take (iPrime - i)
    ((buf, if best.found then best.distance else 0,
      if best.found then best.length else 0, best.found),
     windowUpdateRegionH hf { st with h := hPrime, i := iPrime } i)

/-- `Advance`: dispatch on the mode selected at `Init`. -/
def AdvanceH (hf : List Nat → Nat → Nat) (st : LZ77) :
    (List Nat × Nat × Nat × Bool) × LZ77 :=
  if st.maxLen = 0 then advanceByteH hf st
  else if st.hbits = 0 then advanceNoHashH hf st
  else advanceStandardH hf st

/-- The engine's operations instantiated with the current `hash4`. -/
def Advance (st : LZ77) : (List Nat × Nat × Nat × Bool) × LZ77 := AdvanceH hash4 st

def Write (st : LZ77) (data : List Nat) : (Nat × Bool) × LZ77 := WriteH hash4 st data

def WriteByte (st : LZ77) (ch : Nat) : Bool × LZ77 := WriteByteH hash4 st ch

def SetWindow (st : LZ77) (data : List Nat) : LZ77 := SetWindowH hash4 st data

def ReadByte (st : LZ77) : (Nat × Bool) × LZ77 := ReadByteH hash4 st

def Read (st : LZ77) (n : Nat) : (List Nat × Nat × Bool) × LZ77 := ReadH hash4 st n

def CommitBulkWrite (st : LZ77) (n : Nat) : LZ77 := CommitBulkWriteH hash4 st n

def CommitBulkRead (st : LZ77) (n : Nat) : LZ77 := CommitBulkReadH hash4 st n

/-- The capped longest common prefix of `S[c..]` and `S[i..]`:
the largest `L ≤ cap` with `S[c..c+L] = S[i..i+L]`. -/
def lcpLen (S : List Nat) (c i cap : Nat) : Nat :=
  match cap with
  | 0 => 0
  | cap' + 1 =>
    if lget S c = lget S i then lcpLen S (c + 1) (i + 1) cap' + 1 else 0

/-- The public mutating operations of the engine, with their inputs. -/
inductive LZOp where
  | writeByte (ch : Nat)
  | write (data : List Nat)
  | prepareBulkWrite (n : Nat)
  | commitBulkWrite (n : Nat)
  | readByte
  | read (n : Nat)
  | commitBulkRead (n : Nat)
  | advance
  | setWindow (data : List Nat)
  | clear
  | windowClear
  deriving Repr, DecidableEq

/-- Apply one public operation (discarding its non-state outputs). -/
def applyOpH (hf : List Nat → Nat → Nat) (st : LZ77) : LZOp → LZ77
  | .writeByte ch => (WriteByteH hf st ch).2
  | .write data => (WriteH hf st data).2
  | .prepareBulkWrite n => (PrepareBulkWrite st n).2
  | .commitBulkWrite n => CommitBulkWriteH hf st n
  | .readByte => (ReadByteH hf st).2
  | .read n => (ReadH hf st n).2
  | .commitBulkRead n => CommitBulkReadH hf st n
  | .advance => (AdvanceH hf st).2
  | .setWindow data => SetWindowH hf st data
  | .clear => Clear st
  | .windowClear => WindowClear st

def applyOp (st : LZ77) (op : LZOp) : LZ77 := applyOpH hash4 st op

/-- The caller-side contract of each operation.  `CommitBulkWrite` must
follow a matching `PrepareBulkWrite`, whose returned slice lies inside the
region and has length at most `bsize - (j - i)` (the source asserts the
latter and the former is the documented bulk-write protocol);
`CommitBulkRead` must not consume more than the buffered bytes (asserted
by the source).  The remaining operations have no preconditions. -/
def opOK (st : LZ77) : LZOp → Prop
  | .commitBulkWrite n => n ≤ st.bsize - (st.j - st.i) ∧ st.j + n ≤ st.slice.length
  | .commitBulkRead n => min n st.bsize ≤ st.j - st.i
  | _ => True

instance (st : LZ77) (op : LZOp) : Decidable (opOK st op) := by
  cases op <;> simp only [opOK] <;> infer_instance

/-- States reachable from `Init` through contract-respecting public
operations. -/
inductive Reachable (o : LZ77Options) : LZ77 → Prop where
  | init : InitOK o → Reachable o (Init o)
  | step {st : LZ77} {op : LZOp} :
      Reachable o st → opOK st op → Reachable o (applyOp st op)

/-- Run a list of operations left to right. -/
def runOpsH (hf : List Nat → Nat → Nat) (st : LZ77) (ops : List LZOp) : LZ77 :=
  ops.foldl (applyOpH hf) st

def runOps (st : LZ77) (ops : List LZOp) : LZ77 := runOpsH hash4 st ops

/-- Operations whose contract holds in every state. -/
def opFree : LZOp → Prop
  | .commitBulkWrite _ => False
  | .commitBulkRead _ => False
  | _ => True

instance : DecidablePred opFree := by
  intro op; cases op <;> simp only [opFree] <;> infer_instance

/-! ## Concrete scenarios -/

/-- `bufferBits=4, windowBits=3, hashBits=8, maxMatchLength=8`, other
parameters defaulted (`minLen=4`, `maxDist=8`). -/
def scOpts : LZ77Options := ⟨4, 3, 8, 0, 8, 0, false, true, false⟩

/-- The bytes of `"0123012301230123"`. -/
def scData : List Nat := [48,49,50,51,48,49,50,51,48,49,50,51,48,49,50,51]

def scS0 : LZ77 := (Write (Clear (Init scOpts)) scData).2

def scA1 := Advance scS0

def scA2 := Advance scA1.2

def scA3 := Advance scA2.2

def scA4 := Advance scA3.2

def scA5 := Advance scA4.2

def scA6 := Advance scA5.2

/-- The hash formula as the spec states it: big-endian word `u`, wrapping
32-bit products with `C1`/`C2`, rotate-left by 17 and 19, xor, mask. -/
def hash4Formula (b0 b1 b2 b3 hashBits : Nat) : Nat :=
  let u := (b0 <<< 24) ||| (b1 <<< 16) ||| (b2 <<< 8) ||| b3
  let mask := if hashBits < 32 then (1 <<< hashBits) - 1 else 0xFFFFFFFF
  (rotl32 (mul32 u 0xCC9E2D51) 17 ^^^ rotl32 (mul32 u 0x1B873593) 19) &&& mask

/-- `bufferBits=2` and all other options defaulted: `bsize = 4`. -/
def fullOpts : LZ77Options := ⟨2, 0, 0, 0, 0, 0, false, false, false⟩

/-- `bufferBits=4, windowBits=4, hashBits=8`, everything else defaulted
(`minLen=4`, `maxLen=16`, `maxDist=16`). -/
def bugOpts : LZ77Options := ⟨4, 4, 8, 0, 0, 0, false, false, false⟩

/-- 16 pairwise distinct filler bytes (`"ABCDEFGHIJKLMNOP"`). -/
def bugA1 : List Nat := [65,66,67,68,69,70,71,72,73,74,75,76,77,78,79,80]

/-- `"0123abcd0123wxyz"`: the 4-gram `"0123"` occurs at offsets 0 and 8. -/
def bugA2 : List Nat := [48,49,50,51,97,98,99,100,48,49,50,51,119,120,121,122]

/-- `"0123abZZ"`: shares 6 bytes with `"0123abcd"` and 4 with `"0123wxyz"`. -/
def bugC : List Nat := [48,49,50,51,97,98,90,90]

def advN (n : Nat) : List LZOp := List.replicate n .advance

/-- Fill the region through two write/drain generations, then a third
write that forces `shift` with `delta = 32`. -/
def bugOps : List LZOp :=
  .write bugA1 :: advN 16 ++ .write bugA2 :: advN 16 ++ [.write bugC]

def bugSt : LZ77 := runOps (Init bugOpts) bugOps

/-- `"0123efghAACQwxyz"`: `"AACQ"` collides with `"0123"` under the
rotate-and-xor mixer at `hashBits = 8` but not under the CityHash32-based
mixer. -/
def mixA2 : List Nat := [48,49,50,51,101,102,103,104,65,65,67,81,119,120,121,122]

/-- The same operation sequence as `bugOps` with `mixA2` as the second
generation. -/
def mixOps : List LZOp :=
  .write bugA1 :: advN 16 ++ .write mixA2 :: advN 16 ++ [.write bugC]

/-- A literal-only configuration: `HasMaxMatchLength` with
`MaxMatchLength = 0` forces the degenerate mode at `Init`. -/
def litOpts : LZ77Options := ⟨2, 3, 8, 0, 0, 0, false, true, false⟩

/-- Two states with identical byte region, indices and configuration,
and hash arrays of identical sizes (the array contents may differ). -/
def SameCore (a b : LZ77) : Prop :=
  a.slice = b.slice ∧ a.h = b.h ∧ a.i = b.i ∧ a.j = b.j ∧
  a.bsize = b.bsize ∧ a.wsize = b.wsize ∧ a.hashMask = b.hashMask ∧
  a.minLen = b.minLen ∧ a.maxLen = b.maxLen ∧ a.maxDist = b.maxDist ∧
  a.bbits = b.bbits ∧ a.wbits = b.wbits ∧ a.hbits = b.hbits ∧
  a.htLastByHash.length = b.htLastByHash.length ∧
  a.htPrevByIndex.length = b.htPrevByIndex.length

/-- Two states with the same configuration and array sizes (indices and
contents may differ): every public operation preserves this. -/
def SameConfig (a b : LZ77) : Prop :=
  a.bsize = b.bsize ∧ a.wsize = b.wsize ∧ a.hashMask = b.hashMask ∧
  a.minLen = b.minLen ∧ a.maxLen = b.maxLen ∧ a.maxDist = b.maxDist ∧
  a.bbits = b.bbits ∧ a.wbits = b.wbits ∧ a.hbits = b.hbits ∧
  a.slice.length = b.slice.length ∧
  a.htLastByHash.length = b.htLastByHash.length ∧
  a.htPrevByIndex.length = b.htPrevByIndex.length

/-- Configuration facts established by `Init` and never mutated. -/
def ConfigWF (st : LZ77) : Prop :=
  st.slice.length = st.wsize + st.bsize * 2 ∧
  st.maxDist ≤ st.wsize ∧ st.maxLen ≤ st.bsize ∧
  (st.maxLen = 0 → st.maxDist = 0) ∧ (st.maxDist = 0 → st.maxLen = 0) ∧
  (st.maxLen ≠ 0 → 1 ≤ st.minLen)

/-- The index invariants of the byte store. -/
def IdxInv (st : LZ77) : Prop :=
  st.h ≤ st.i ∧ st.i ≤ st.j ∧ st.j ≤ st.slice.length ∧
  st.i - st.h ≤ st.wsize ∧ st.j - st.i ≤ st.bsize ∧ st.wsize ≤ st.i

/-- The full inductive invariant: configuration facts, index bounds, and
emptiness of the window in literal-only mode. -/
def Inv (st : LZ77) : Prop :=
  ConfigWF st ∧ IdxInv st ∧ (st.maxLen = 0 → st.h = st.i)

/-- Soundness of a best-match accumulator at probe position `i`: if a
match is recorded, it points at a real window position whose bytes agree
with the buffer head for `length` bytes, with
`minLen ≤ length ≤ maxLen`. -/
def BestSound (st : LZ77) (maxLen : Nat) (best : MatchSt) : Prop :=
  best.found = true →
    ∃ c, st.h ≤ c ∧ c < st.i ∧ best.distance = st.i - c ∧
      st.minLen ≤ best.length ∧ best.length ≤ maxLen ∧
      ∀ m, m < best.length → lget st.slice (c + m) = lget st.slice (st.i + m)

/-- Expand a matched back-reference of distance `d` and length `L`
against the accumulated output `E`, copying byte-at-a-time so that
self-overlapping copies are handled. -/
def expandMatch (d : Nat) : Nat → List Nat → List Nat
  | 0, E => E
  | L + 1, E => expandMatch d L (E ++ [lget E (E.length - d)])

/-- An operation of the round-trip experiment: write bytes or advance. -/
inductive RTOp where
  | write (data : List Nat)
  | advance
  deriving Repr, DecidableEq

/-- One round-trip step, threading the engine state, the stream of bytes
accepted by writes, and the expansion of the spans returned by
`Advance`. -/
def rtStep (hf : List Nat → Nat → Nat) :
    LZ77 × List Nat × List Nat → RTOp → LZ77 × List Nat × List Nat
  | (st, W, E), .write data =>
    let r := WriteH hf st data
    (r.2, W ++ data.take r.1.1, E)
  | (st, W, E), .advance =>
    let r := AdvanceH hf st
    (r.2, W, if r.1.2.2.2 then expandMatch r.1.2.1 r.1.2.2.1 E else E ++ r.1.1)

/-- Run a round-trip experiment from a freshly initialized engine. -/
def runRT (hf : List Nat → Nat → Nat) (o : LZ77Options) (ops : List RTOp) :
    LZ77 × List Nat × List Nat :=
  ops.foldl (rtStep hf) (Init o, [], [])

/-- The round-trip invariant: the engine satisfies `Inv`, the window is a
suffix of the expanded output `E`, and the accepted stream `W` equals `E`
followed by the bytes still buffered. -/
def RTInv (st : LZ77) (W E : List Nat) : Prop :=
  Inv st ∧
  st.i - st.h ≤ E.length ∧
  (∀ dd, 1 ≤ dd → dd ≤ st.i - st.h →
    lget st.slice (st.i - dd) = lget E (E.length - dd)) ∧
  W = E ++ BufferBytesView st

/-- A concrete round-trip experiment: one write, then drain. -/
def rtOps1 : List RTOp :=
  RTOp.write scData :: List.replicate 6 RTOp.advance

/-! ## List toolkit -/

theorem listWrite_length (l : List Nat) (a : Nat) (src : List Nat) :
    (listWrite l a src).length = l.length := by
  simp only [listWrite, List.length_append, List.length_take, List.length_drop]
  omega

theorem copySlice_length (l : List Nat) (a b : Nat) (src : List Nat) :
    (copySlice l a b src).length = l.length := listWrite_length ..

theorem zeroRange_length (l : List Nat) (a b : Nat) :
    (zeroRange l a b).length = l.length := listWrite_length ..

theorem lget_eq_getElem? (l : List Nat) (n : Nat) : lget l n = (l[n]?).getD 0 :=
  List.getD_eq_getElem?_getD l n 0

theorem lget_of_length_le (l : List Nat) (n : Nat) (h : l.length ≤ n) :
    lget l n = 0 := by
  simp [lget_eq_getElem?, List.getElem?_eq_none h]

theorem lget_eq_getElem (l : List Nat) (n : Nat) (h : n < l.length) :
    lget l n = l[n] := by
  simp [lget_eq_getElem?, List.getElem?_eq_getElem h]

theorem list_eq_of_lget (l₁ l₂ : List Nat) (hlen : l₁.length = l₂.length)
    (h : ∀ k, k < l₁.length → lget l₁ k = lget l₂ k) : l₁ = l₂ := by
  refine List.ext_getElem? fun n => ?_
  rcases Nat.lt_or_ge n l₁.length with hn | hn
  · have h₂ : n < l₂.length := hlen ▸ hn
    rw [List.getElem?_eq_getElem hn, List.getElem?_eq_getElem h₂]
    have := h n hn
    rw [lget_eq_getElem _ _ hn, lget_eq_getElem _ _ h₂] at this
    simp [this]
  · rw [List.getElem?_eq_none hn, List.getElem?_eq_none (hlen ▸ hn)]

theorem lget_seg (l : List Nat) (a n k : Nat) (hk : k < n) :
    lget ((l.drop a).take n) k = lget l (a + k) := by
  simp [lget_eq_getElem?, List.getElem?_take, hk, List.getElem?_drop]

theorem seg_length (l : List Nat) (a n : Nat) :
    ((l.drop a).take n).length = min n (l.length - a) := by simp

theorem listWrite_of_length_le (l : List Nat) (a : Nat) (src : List Nat)
    (h : l.length ≤ a) : listWrite l a src = l := by
  simp [listWrite, Nat.sub_eq_zero_of_le h, List.take_of_length_le h,
    List.drop_eq_nil_of_le (Nat.le_trans h (Nat.le_add_right a _))]

theorem lget_listWrite_left (l : List Nat) (a : Nat) (src : List Nat)
    (k : Nat) (hk : k < a) : lget (listWrite l a src) k = lget l k := by
  rcases Nat.lt_or_ge k l.length with hkl | hkl
  · have h1 : k < (l.take a).length := by rw [List.length_take]; omega
    unfold listWrite
    rw [List.append_assoc, lget_eq_getElem?, List.getElem?_append, if_pos h1,
      List.getElem?_take, if_pos hk, ← lget_eq_getElem?]
  · rw [lget_of_length_le _ _ (by rw [listWrite_length]; omega),
      lget_of_length_le _ _ hkl]

theorem lget_listWrite_mid (l : List Nat) (a : Nat) (src : List Nat)
    (k : Nat) (ha : a ≤ l.length) (h1 : a ≤ k) (h2 : k < a + src.length)
    (h3 : k < l.length) :
    lget (listWrite l a src) k = lget src (k - a) := by
  have hta : (l.take a).length = a := by rw [List.length_take]; omega
  have hmid : k - a < (src.take (l.length - a)).length := by
    rw [List.length_take]; omega
  unfold listWrite
  rw [List.append_assoc, lget_eq_getElem?, List.getElem?_append, hta,
    if_neg (by omega), List.getElem?_append, if_pos hmid,
    List.getElem?_take, if_pos (by omega), ← lget_eq_getElem?]

theorem lget_listWrite_right (l : List Nat) (a : Nat) (src : List Nat)
    (k : Nat) (ha : a ≤ l.length) (h1 : a + src.length ≤ k) :
    lget (listWrite l a src) k = lget l k := by
  rcases Nat.lt_or_ge k l.length with hkl | hkl
  · have hta : (l.take a).length = a := by rw [List.length_take]; omega
    have hts : (src.take (l.length - a)).length = src.length := by
      rw [List.length_take]; omega
    unfold listWrite
    rw [List.append_assoc, lget_eq_getElem?, List.getElem?_append, hta,
      if_neg (by omega), List.getElem?_append, hts, if_neg (by omega),
      List.getElem?_drop, ← lget_eq_getElem?]
    congr 1
    omega
  · rw [lget_of_length_le _ _ (by rw [listWrite_length]; omega),
      lget_of_length_le _ _ hkl]

/-! ## Claim theorems: concrete scenarios -/

/-- C5: with `bufferBits=4, windowBits=3, hashBits=8, maxMatchLength=8`
(defaults `minMatchLength=4`, `maxMatchDistance=8`), after `Clear` and
writing `"0123012301230123"`, the first four `Advance` calls return the
literals `"0" "1" "2" "3"` with no match, the fifth returns the span
`"01230123"` as a match with distance 4 and length 8, the sixth returns
`"0123"` with distance 4 and length 4, and the buffer is then empty. -/
theorem advance_trace_0123 :
    (Write (Clear (Init scOpts)) scData).1 = (16, false) ∧
    scA1.1 = ([48], 0, 0, false) ∧
    scA2.1 = ([49], 0, 0, false) ∧
    scA3.1 = ([50], 0, 0, false) ∧
    scA4.1 = ([51], 0, 0, false) ∧
    scA5.1 = ([48,49,50,51,48,49,50,51], 4, 8, true) ∧
    scA6.1 = ([48,49,50,51], 4, 4, true) ∧
    (scA6.2).i = (scA6.2).j := by decide

/-- C7: for all bytes `b0 b1 b2 b3` and every `hashBits ≤ 32`, `hash4`
returns `(rotl32(u*C1,17) XOR rotl32(u*C2,19)) AND hashMask` with `u` the
big-endian packing of the four bytes, wrapping 32-bit multiplication, and
`hashMask = (1 << hashBits) - 1` (all ones when `hashBits = 32`). -/
theorem hash4_matches_formula (b0 b1 b2 b3 hashBits : Nat)
    (hb0 : b0 < 256) (hb1 : b1 < 256) (hb2 : b2 < 256) (hb3 : b3 < 256)
    (hh : hashBits ≤ 32) :
    hash4 [b0, b1, b2, b3] (initHashMask hashBits) =
      hash4Formula b0 b1 b2 b3 hashBits := rfl

theorem hash4_matches_formula_witness :
    hash4 [48, 49, 50, 51] (initHashMask 8) = hash4Formula 48 49 50 51 8 :=
  hash4_matches_formula 48 49 50 51 8 (by decide) (by decide) (by decide)
    (by decide) (by decide)

/-- C8: in every mode, `Advance` on an empty buffer (`i = j`) returns the
empty span with distance 0, length 0, no match, and leaves the state
unchanged. -/
theorem advance_empty_noop (st : LZ77) (hij : st.i = st.j) :
    Advance st = (([], 0, 0, false), st) := by
  have h1 : st.j < st.i + 1 := by omega
  unfold Advance AdvanceH advanceByteH advanceNoHashH advanceStandardH
  by_cases hml : st.maxLen = 0 <;> by_cases hhb : st.hbits = 0 <;>
    simp [hml, hhb, h1]

theorem advance_empty_noop_witness :
    Advance (Init scOpts) = (([], 0, 0, false), Init scOpts) :=
  advance_empty_noop (Init scOpts) rfl

/-- C3 (counterexample): writing five bytes into a fresh four-byte buffer
accepts four of them — they land in the buffer — and nevertheless
returns the `Full` error, contradicting "a call that accepts at least one
byte returns the count written together with a nil error". -/
theorem write_full_despite_partial_accept :
    (Write (Init fullOpts) [1,2,3,4,5]).1 = (4, true) ∧
    BufferBytesView (Write (Init fullOpts) [1,2,3,4,5]).2 = [1,2,3,4] := by decide

theorem opOK_of_opFree {st : LZ77} {op : LZOp} (h : opFree op) : opOK st op := by
  cases op <;> simp_all [opFree, opOK]

theorem reachable_runOps {o : LZ77Options} {st : LZ77} (h : Reachable o st)
    (ops : List LZOp) (hops : ∀ op ∈ ops, opFree op) :
    Reachable o (runOps st ops) := by
  induction ops generalizing st with
  | nil => exact h
  | cons op ops ih =>
    exact ih (h.step (opOK_of_opFree (hops op (by simp))))
      fun op' hmem => hops op' (by simp [hmem])

/-- C2 (code bug): on the reachable state `bugSt` — produced purely by
public `Write`/`Advance` calls whose last `Write` triggered `shift` —
`Advance` returns a match of length 4 at distance 8 even though the
window position `c = 0` (distance 16) matches the buffer head for 6 bytes
(capped at `min(maxLen, j-i) = 8`): `shift` fails to relocate the
`htPrevByIndex` chain links to their new slots, so the probe never
reaches the longer candidate. -/
theorem advance_misses_longer_match :
    Reachable bugOpts bugSt ∧
    bugSt.h = 0 ∧ bugSt.i = 16 ∧ bugSt.j = 24 ∧
    bugSt.minLen = 4 ∧ bugSt.maxLen = 16 ∧
    (Advance bugSt).1 = ([48, 49, 50, 51], 8, 4, true) ∧
    lcpLen bugSt.slice 0 bugSt.i (min bugSt.maxLen (bugSt.j - bugSt.i)) = 6 :=
  ⟨reachable_runOps (.init (by decide)) bugOps (by decide), by decide⟩

/-- C9 (code bug): running the same public operation sequence under the
two four-byte mixers and then calling `Advance` yields different emitted
results — a literal under the rotate-and-xor mixer, a `(distance 16,
length 4)` match under the CityHash32-based mixer — because the chain
links corrupted by `shift` cut the walk at a mixer-dependent head. -/
theorem advance_depends_on_mixer :
    (AdvanceH hash4 (runOpsH hash4 (Init bugOpts) mixOps)).1 = ([48], 0, 0, false) ∧
    (AdvanceH hash4B (runOpsH hash4B (Init bugOpts) mixOps)).1 =
      ([48, 49, 50, 51], 16, 4, true) ∧
    (AdvanceH hash4 (runOpsH hash4 (Init bugOpts) mixOps)).1 ≠
      (AdvanceH hash4B (runOpsH hash4B (Init bugOpts) mixOps)).1 := by decide

/-! ## Derived getters for `copySlice` and `zeroRange` -/

theorem lget_copySlice_left (l : List Nat) (a b : Nat) (src : List Nat)
    (k : Nat) (hk : k < a) : lget (copySlice l a b src) k = lget l k := by
  rw [copySlice]; exact lget_listWrite_left l a _ k hk

theorem lget_copySlice_mid (l : List Nat) (a b : Nat) (src : List Nat)
    (k : Nat) (ha : a ≤ l.length) (h1 : a ≤ k) (h2 : k < a + min (b - a) src.length)
    (h3 : k < l.length) :
    lget (copySlice l a b src) k = lget src (k - a) := by
  have := lget_listWrite_mid l a (src.take (b - a)) k ha h1
    (by rw [List.length_take]; omega) h3
  rw [copySlice, this, lget_eq_getElem?, lget_eq_getElem?,
    List.getElem?_take, if_pos (by omega)]

theorem lget_copySlice_right (l : List Nat) (a b : Nat) (src : List Nat)
    (k : Nat) (ha : a ≤ l.length) (h1 : a + min (b - a) src.length ≤ k) :
    lget (copySlice l a b src) k = lget l k :=
  lget_listWrite_right l a _ k ha (by rw [List.length_take]; omega)

theorem lget_zeroRange_left (l : List Nat) (a b k : Nat) (hk : k < a) :
    lget (zeroRange l a b) k = lget l k := by
  rw [zeroRange]; exact lget_listWrite_left l a _ k hk

theorem lget_zeroRange_mid (l : List Nat) (a b k : Nat) (ha : a ≤ l.length)
    (h1 : a ≤ k) (h2 : k < b) (h3 : k < l.length) :
    lget (zeroRange l a b) k = 0 := by
  rw [zeroRange, lget_listWrite_mid l a _ k ha h1
    (by rw [List.length_replicate]; omega) h3]
  rcases Nat.lt_or_ge (k - a) (b - a) with h | h
  · rw [lget_eq_getElem?, List.getElem?_replicate, if_pos h]; rfl
  · rw [lget_of_length_le _ _ (by rw [List.length_replicate]; omega)]

theorem lget_zeroRange_right (l : List Nat) (a b k : Nat) (ha : a ≤ l.length)
    (h1 : a ≤ k) (h2 : b ≤ k) :
    lget (zeroRange l a b) k = lget l k :=
  lget_listWrite_right l a _ k ha (by rw [List.length_replicate]; omega)

/-! ## Core-preservation of the hash-table maintenance -/

theorem sameCore_refl (a : LZ77) : SameCore a a := by
  simp [SameCore]

theorem sameCore_trans {a b c : LZ77} (h1 : SameCore a b) (h2 : SameCore b c) :
    SameCore a c := by
  obtain ⟨e1, e2, e3, e4, e5, e6, e7, e8, e9, e10, e11, e12, e13, e14, e15⟩ := h1
  obtain ⟨f1, f2, f3, f4, f5, f6, f7, f8, f9, f10, f11, f12, f13, f14, f15⟩ := h2
  exact ⟨e1.trans f1, e2.trans f2, e3.trans f3, e4.trans f4, e5.trans f5,
    e6.trans f6, e7.trans f7, e8.trans f8, e9.trans f9, e10.trans f10,
    e11.trans f11, e12.trans f12, e13.trans f13, e14.trans f14, e15.trans f15⟩

theorem windowUpdateRegionLoop_sameCore (hf : List Nat → Nat → Nat)
    (fuel stop : Nat) (st : LZ77) (index : Nat) :
    SameCore (windowUpdateRegionLoop hf fuel stop st index) st := by
  induction fuel generalizing st index with
  | zero => exact sameCore_refl _
  | succ fuel ih =>
    simp only [windowUpdateRegionLoop]
    split
    · exact sameCore_trans (ih ..) (by simp [SameCore])
    · exact sameCore_refl _

theorem windowUpdateRegionH_sameCore (hf : List Nat → Nat → Nat)
    (st : LZ77) (index : Nat) :
    SameCore (windowUpdateRegionH hf st index) st := by
  unfold windowUpdateRegionH
  split
  · exact sameCore_refl _
  · exact windowUpdateRegionLoop_sameCore ..

/-! ## Soundness of the match search -/

theorem advanceCheckMatchLoop_sound (st : LZ77) (curr maxLen : Nat)
    (fuel : Nat) :
    ∀ (index : Nat) (best : MatchSt),
    st.h ≤ curr → curr < st.i →
    (∀ m, m < index → lget st.slice (curr + m) = lget st.slice (st.i + m)) →
    BestSound st maxLen best →
    BestSound st maxLen (advanceCheckMatchLoop st curr maxLen fuel index best) := by
  induction fuel with
  | zero => intro index best _ _ _ hb; exact hb
  | succ fuel ih =>
    intro index best hc1 hc2 hacc hb
    simp only [advanceCheckMatchLoop]
    split
    case isTrue hcond =>
      refine ih (index + 1) _ hc1 hc2 ?_ ?_
      · intro m hm
        rcases Nat.lt_or_ge m index with h | h
        · exact hacc m h
        · have hm' : m = index := by omega
          subst hm'; exact hcond.2
      · split
        case isTrue hupd =>
          intro _
          refine ⟨curr, hc1, hc2, rfl, hupd.1, hcond.1, ?_⟩
          intro m hm
          have hm2 : m < index + 1 := hm
          rcases Nat.lt_or_ge m index with h | h
          · exact hacc m h
          · have hm' : m = index := by omega
            subst hm'; exact hcond.2
        case isFalse => exact hb
    case isFalse => exact hb

theorem advanceCheckMatch_sound (st : LZ77) (curr maxLen : Nat) (best : MatchSt)
    (hc1 : st.h ≤ curr) (hc2 : curr < st.i) (hb : BestSound st maxLen best) :
    BestSound st maxLen (advanceCheckMatch st curr maxLen best).1 := by
  unfold advanceCheckMatch
  split
  · exact hb
  · exact advanceCheckMatchLoop_sound st curr maxLen maxLen 0 best hc1 hc2
      (fun m hm => absurd hm (Nat.not_lt_zero m)) hb

theorem stdWalk_sound (st : LZ77) (maxLen fuel : Nat) :
    ∀ (lastPlusOne currPlusOne : Nat) (best : MatchSt),
    lastPlusOne ≤ st.i + 1 → BestSound st maxLen best →
    BestSound st maxLen (stdWalk st maxLen fuel lastPlusOne currPlusOne best) := by
  induction fuel with
  | zero => intro _ _ best _ hb; exact hb
  | succ fuel ih =>
    intro lastPlusOne currPlusOne best hlast hb
    simp only [stdWalk]
    split
    case isTrue hg =>
      have hc1 : st.h ≤ currPlusOne - 1 := by omega
      have hc2 : currPlusOne - 1 < st.i := by omega
      have hr := advanceCheckMatch_sound st (currPlusOne - 1) maxLen best hc1 hc2 hb
      split
      · exact hr
      · exact ih currPlusOne _ _ (by omega) hr
    case isFalse => exact hb

theorem noHashWalk_sound (st : LZ77) (maxLen fuel : Nat) :
    ∀ (curr : Nat) (best : MatchSt),
    curr ≤ st.i → BestSound st maxLen best →
    BestSound st maxLen (noHashWalk st maxLen fuel curr best) := by
  induction fuel with
  | zero => intro _ best _ hb; exact hb
  | succ fuel ih =>
    intro curr best hcurr hb
    simp only [noHashWalk]
    split
    case isTrue hg =>
      have hc1 : st.h ≤ curr - 1 := by omega
      have hc2 : curr - 1 < st.i := by omega
      have hr := advanceCheckMatch_sound st (curr - 1) maxLen best hc1 hc2 hb
      split
      · exact hr
      · exact ih (curr - 1) _ (by omega) hr
    case isFalse => exact hb

/-! ## The `Advance` step theorem -/

theorem ite_lt_max (a b : Nat) : (if a < b then b else a) = max a b := by
  split <;> omega

theorem windowUpdateRegionH_i (hf : List Nat → Nat → Nat) (st : LZ77) (n : Nat) :
    (windowUpdateRegionH hf st n).i = st.i :=
  (windowUpdateRegionH_sameCore hf st n).2.2.1

theorem windowUpdateRegionH_h (hf : List Nat → Nat → Nat) (st : LZ77) (n : Nat) :
    (windowUpdateRegionH hf st n).h = st.h :=
  (windowUpdateRegionH_sameCore hf st n).2.1

theorem windowUpdateRegionH_j (hf : List Nat → Nat → Nat) (st : LZ77) (n : Nat) :
    (windowUpdateRegionH hf st n).j = st.j :=
  (windowUpdateRegionH_sameCore hf st n).2.2.2.1

theorem windowUpdateRegionH_slice (hf : List Nat → Nat → Nat) (st : LZ77) (n : Nat) :
    (windowUpdateRegionH hf st n).slice = st.slice :=
  (windowUpdateRegionH_sameCore hf st n).1

theorem sameConfig_refl (a : LZ77) : SameConfig a a := by simp [SameConfig]

theorem sameConfig_trans {a b c : LZ77} (h1 : SameConfig a b)
    (h2 : SameConfig b c) : SameConfig a c := by
  obtain ⟨e1, e2, e3, e4, e5, e6, e7, e8, e9, e10, e11, e12⟩ := h1
  obtain ⟨f1, f2, f3, f4, f5, f6, f7, f8, f9, f10, f11, f12⟩ := h2
  exact ⟨e1.trans f1, e2.trans f2, e3.trans f3, e4.trans f4, e5.trans f5,
    e6.trans f6, e7.trans f7, e8.trans f8, e9.trans f9, e10.trans f10,
    e11.trans f11, e12.trans f12⟩

theorem sameCore_sameConfig {a b : LZ77} (h : SameCore a b) : SameConfig a b := by
  obtain ⟨e1, _, _, _, e5, e6, e7, e8, e9, e10, e11, e12, e13, e14, e15⟩ := h
  exact ⟨e5, e6, e7, e8, e9, e10, e11, e12, e13, congrArg List.length e1, e14, e15⟩

theorem advanceByteH_spec (hf : List Nat → Nat → Nat) (st : LZ77)
    (hne : st.i < st.j) :
    (advanceByteH hf st).2.i = st.i + 1 ∧
    (advanceByteH hf st).2.h = max st.h (st.i + 1 - st.maxDist) ∧
    (advanceByteH hf st).2.j = st.j ∧
    (advanceByteH hf st).2.slice = st.slice ∧
    SameConfig (advanceByteH hf st).2 st ∧
    (advanceByteH hf st).1 = ((st.slice.drop st.i).take 1, 0, 0, false) := by
  have hg : ¬ (st.i + 1 > st.j) := by omega
  unfold advanceByteH
  rw [if_neg hg]
  dsimp only
  rw [windowUpdateRegionH_i, windowUpdateRegionH_h, windowUpdateRegionH_j,
    windowUpdateRegionH_slice]
  dsimp only
  refine ⟨rfl, ite_lt_max .., rfl, rfl, ?_, ?_⟩
  · exact sameConfig_trans
      (sameCore_sameConfig (windowUpdateRegionH_sameCore ..))
      (by simp [SameConfig])
  · have h1 : st.i + 1 - st.i = 1 := by omega
    rw [h1]

theorem advanceNoHashH_spec (hf : List Nat → Nat → Nat) (st : LZ77)
    (hmin : 1 ≤ st.minLen) (hne : st.i < st.j) :
    ∃ L, 1 ≤ L ∧ st.i + L ≤ st.j ∧
      (advanceNoHashH hf st).2.i = st.i + L ∧
      (advanceNoHashH hf st).2.h = max st.h (st.i + L - st.maxDist) ∧
      (advanceNoHashH hf st).2.j = st.j ∧
      (advanceNoHashH hf st).2.slice = st.slice ∧
      SameConfig (advanceNoHashH hf st).2 st ∧
      (advanceNoHashH hf st).1.1 = (st.slice.drop st.i).take L ∧
      ((advanceNoHashH hf st).1.2.2.2 = false →
        L = 1 ∧ (advanceNoHashH hf st).1.2.1 = 0 ∧ (advanceNoHashH hf st).1.2.2.1 = 0) ∧
      ((advanceNoHashH hf st).1.2.2.2 = true →
        (advanceNoHashH hf st).1.2.2.1 = L ∧ 1 ≤ (advanceNoHashH hf st).1.2.1 ∧
        (advanceNoHashH hf st).1.2.1 ≤ st.i - st.h ∧
        st.minLen ≤ L ∧ L ≤ st.j - st.i ∧
        ∀ m, m < L →
          lget st.slice (st.i - (advanceNoHashH hf st).1.2.1 + m) =
            lget st.slice (st.i + m)) := by
  have hg : ¬ (st.i + 1 > st.j) := by omega
  unfold advanceNoHashH
  rw [if_neg hg]
  dsimp only
  rw [windowUpdateRegionH_i, windowUpdateRegionH_h, windowUpdateRegionH_j,
    windowUpdateRegionH_slice]
  dsimp only
  set mx := if st.maxLen > st.j - st.i then st.j - st.i else st.maxLen with hmx
  set b := (if st.minLen ≤ mx then noHashWalk st mx st.i st.i ⟨false, 0, 0⟩
    else (⟨false, 0, 0⟩ : MatchSt)) with hbdef
  have hsound : BestSound st mx b := by
    rw [hbdef]
    split
    · exact noHashWalk_sound st mx st.i st.i _ (Nat.le_refl _)
        (by intro h; simp at h)
    · intro h; simp at h
  have hmxle : mx ≤ st.j - st.i := by rw [hmx]; split <;> omega
  cases hbf : b.found with
  | true =>
    have hit : ∀ (x y : Nat), (if true = true then x else y) = x :=
      fun x y => if_pos rfl
    obtain ⟨c, hc1, hc2, hdist, hminl, hlenle, hbytes⟩ := hsound hbf
    refine ⟨b.length, by omega, by omega, ?_, ?_, ?_, ?_, ?_, ?_, ?_, ?_⟩
    · simp only [hit, if_true]
    · simp only [hit, if_true]; rw [ite_lt_max]
    · rfl
    · rfl
    · exact sameConfig_trans
        (sameCore_sameConfig (windowUpdateRegionH_sameCore ..))
        (by simp [SameConfig])
    · simp only [hit, if_true]; rw [Nat.add_sub_cancel_left]
    · exact fun h => Bool.noConfusion h
    · intro _
      refine ⟨by simp, ?_, ?_, hminl, by omega, ?_⟩
      · simp only [if_true]; omega
      · simp only [if_true]; omega
      · intro m hm
        simp only [if_true]
        rw [hdist]
        have hcc : st.i - (st.i - c) = c := by omega
        rw [hcc]
        exact hbytes m hm
  | false =>
    have hif : ∀ (x y : Nat), (if false = true then x else y) = y :=
      fun x y => if_neg (fun h => Bool.noConfusion h)
    refine ⟨1, Nat.le_refl 1, by omega, ?_, ?_, ?_, ?_, ?_, ?_, ?_, ?_⟩
    · simp only [hif, if_false]
    · simp only [hif, if_false]; rw [ite_lt_max]
    · rfl
    · rfl
    · exact sameConfig_trans
        (sameCore_sameConfig (windowUpdateRegionH_sameCore ..))
        (by simp [SameConfig])
    · simp only [hif, if_false]; rw [Nat.add_sub_cancel_left]
    · intro _; exact ⟨rfl, by simp, by simp⟩
    · exact fun h => Bool.noConfusion h

theorem advanceStandardH_spec (hf : List Nat → Nat → Nat) (st : LZ77)
    (hmin : 1 ≤ st.minLen) (hne : st.i < st.j) :
    ∃ L, 1 ≤ L ∧ st.i + L ≤ st.j ∧
      (advanceStandardH hf st).2.i = st.i + L ∧
      (advanceStandardH hf st).2.h = max st.h (st.i + L - st.maxDist) ∧
      (advanceStandardH hf st).2.j = st.j ∧
      (advanceStandardH hf st).2.slice = st.slice ∧
      SameConfig (advanceStandardH hf st).2 st ∧
      (advanceStandardH hf st).1.1 = (st.slice.drop st.i).take L ∧
      ((advanceStandardH hf st).1.2.2.2 = false →
        L = 1 ∧ (advanceStandardH hf st).1.2.1 = 0 ∧ (advanceStandardH hf st).1.2.2.1 = 0) ∧
      ((advanceStandardH hf st).1.2.2.2 = true →
        (advanceStandardH hf st).1.2.2.1 = L ∧ 1 ≤ (advanceStandardH hf st).1.2.1 ∧
        (advanceStandardH hf st).1.2.1 ≤ st.i - st.h ∧
        st.minLen ≤ L ∧ L ≤ st.j - st.i ∧
        ∀ m, m < L →
          lget st.slice (st.i - (advanceStandardH hf st).1.2.1 + m) =
            lget st.slice (st.i + m)) := by
  have hg : ¬ (st.i + 1 > st.j) := by omega
  unfold advanceStandardH
  rw [if_neg hg]
  dsimp only
  rw [windowUpdateRegionH_i, windowUpdateRegionH_h, windowUpdateRegionH_j,
    windowUpdateRegionH_slice]
  dsimp only
  set mx := if st.maxLen > st.j - st.i then st.j - st.i else st.maxLen with hmx
  set b := (if st.minLen ≤ mx then
    stdWalk st mx (st.i + 1) (st.i + 1)
      (lget st.htLastByHash (hf ((st.slice.drop st.i).take hashLen) st.hashMask))
      ⟨false, 0, 0⟩
    else (⟨false, 0, 0⟩ : MatchSt)) with hbdef
  have hsound : BestSound st mx b := by
    rw [hbdef]
    split
    · exact stdWalk_sound st mx (st.i + 1) (st.i + 1) _ _ (Nat.le_refl _)
        (by intro h; simp at h)
    · intro h; simp at h
  have hmxle : mx ≤ st.j - st.i := by rw [hmx]; split <;> omega
  cases hbf : b.found with
  | true =>
    have hit : ∀ (x y : Nat), (if true = true then x else y) = x :=
      fun x y => if_pos rfl
    obtain ⟨c, hc1, hc2, hdist, hminl, hlenle, hbytes⟩ := hsound hbf
    refine ⟨b.length, by omega, by omega, ?_, ?_, ?_, ?_, ?_, ?_, ?_, ?_⟩
    · simp only [hit, if_true]
    · simp only [hit, if_true]; rw [ite_lt_max]
    · rfl
    · rfl
    · exact sameConfig_trans
        (sameCore_sameConfig (windowUpdateRegionH_sameCore ..))
        (by simp [SameConfig])
    · simp only [hit, if_true]; rw [Nat.add_sub_cancel_left]
    · exact fun h => Bool.noConfusion h
    · intro _
      refine ⟨by simp, ?_, ?_, hminl, by omega, ?_⟩
      · simp only [if_true]; omega
      · simp only [if_true]; omega
      · intro m hm
        simp only [if_true]
        rw [hdist]
        have hcc : st.i - (st.i - c) = c := by omega
        rw [hcc]
        exact hbytes m hm
  | false =>
    have hif : ∀ (x y : Nat), (if false = true then x else y) = y :=
      fun x y => if_neg (fun h => Bool.noConfusion h)
    refine ⟨1, Nat.le_refl 1, by omega, ?_, ?_, ?_, ?_, ?_, ?_, ?_, ?_⟩
    · simp only [hif, if_false]
    · simp only [hif, if_false]; rw [ite_lt_max]
    · rfl
    · rfl
    · exact sameConfig_trans
        (sameCore_sameConfig (windowUpdateRegionH_sameCore ..))
        (by simp [SameConfig])
    · simp only [hif, if_false]; rw [Nat.add_sub_cancel_left]
    · intro _; exact ⟨rfl, by simp, by simp⟩
    · exact fun h => Bool.noConfusion h

theorem AdvanceH_spec (hf : List Nat → Nat → Nat) (st : LZ77)
    (hInv : Inv st) (hne : st.i < st.j) :
    ∃ L, 1 ≤ L ∧ st.i + L ≤ st.j ∧
      (AdvanceH hf st).2.i = st.i + L ∧
      (AdvanceH hf st).2.h = max st.h (st.i + L - st.maxDist) ∧
      (AdvanceH hf st).2.j = st.j ∧
      (AdvanceH hf st).2.slice = st.slice ∧
      SameConfig (AdvanceH hf st).2 st ∧
      (AdvanceH hf st).1.1 = (st.slice.drop st.i).take L ∧
      ((AdvanceH hf st).1.2.2.2 = false →
        L = 1 ∧ (AdvanceH hf st).1.2.1 = 0 ∧ (AdvanceH hf st).1.2.2.1 = 0) ∧
      ((AdvanceH hf st).1.2.2.2 = true →
        (AdvanceH hf st).1.2.2.1 = L ∧ 1 ≤ (AdvanceH hf st).1.2.1 ∧
        (AdvanceH hf st).1.2.1 ≤ st.i - st.h ∧
        st.minLen ≤ L ∧ L ≤ st.j - st.i ∧
        ∀ m, m < L →
          lget st.slice (st.i - (AdvanceH hf st).1.2.1 + m) =
            lget st.slice (st.i + m)) := by
  obtain ⟨⟨hlen, hwd, hlb, hmd0, hdm0, hml1⟩, hidx, hlit⟩ := hInv
  unfold AdvanceH
  by_cases hml : st.maxLen = 0
  · rw [if_pos hml]
    obtain ⟨hi, hh, hj, hs, hcfg, hres⟩ := advanceByteH_spec hf st hne
    refine ⟨1, Nat.le_refl 1, by omega, hi, hh, hj, hs, hcfg, ?_, ?_, ?_⟩
    · rw [hres]
    · intro _
      rw [hres]
      exact ⟨rfl, rfl, rfl⟩
    · intro htrue
      rw [hres] at htrue
      exact Bool.noConfusion htrue
  · rw [if_neg hml]
    have hmin : 1 ≤ st.minLen := hml1 hml
    by_cases hhb : st.hbits = 0
    · rw [if_pos hhb]
      exact advanceNoHashH_spec hf st hmin hne
    · rw [if_neg hhb]
      exact advanceStandardH_spec hf st hmin hne

/-! ## The `shift` theorem -/

theorem shiftPrevLoop_length (prev : List Nat) (h i delta : Nat) :
    ∀ (fuel index : Nat),
    (shift.shiftPrevLoop prev h i delta fuel index).length = prev.length := by
  intro fuel
  induction fuel generalizing prev with
  | zero => intro _; rfl
  | succ fuel ih => intro index; rw [shift.shiftPrevLoop, ih, List.length_set]

theorem shift_spec (st : LZ77) (n : Nat) (hInv : Inv st)
    (hn : n ≤ st.bsize - (st.j - st.i)) :
    Inv (shift st n) ∧ SameConfig (shift st n) st ∧
    (shift st n).j + n ≤ (shift st n).slice.length ∧
    (shift st n).i - (shift st n).h = st.i - st.h ∧
    (shift st n).j - (shift st n).i = st.j - st.i ∧
    st.wsize ≤ (shift st n).i ∧
    ∀ k, k < st.j - st.h →
      lget (shift st n).slice ((shift st n).h + k) = lget st.slice (st.h + k) := by
  obtain ⟨⟨hlen, hwd, hlb, hmd0, hdm0, hml1⟩, ⟨ihi, iij, ijl, iwh, ibi, iwi⟩, hlit⟩ := hInv
  unfold shift
  dsimp only
  split
  case isTrue hk =>
    exact ⟨⟨⟨hlen, hwd, hlb, hmd0, hdm0, hml1⟩, ⟨ihi, iij, ijl, iwh, ibi, iwi⟩, hlit⟩,
      sameConfig_refl st, by omega, rfl, rfl, iwi, fun k _ => rfl⟩
  case isFalse hk =>
    set hP := st.wsize - (st.i - st.h) with hhP
    set jP := st.wsize + (st.j - st.i) with hjP
    set src := (st.slice.drop st.h).take (st.j - st.h) with hsrc
    set s1 := copySlice st.slice hP jP src with hs1
    set s2 := zeroRange s1 0 hP with hs2
    set s3 := zeroRange s2 jP s2.length with hs3
    have hl1 : s1.length = st.slice.length := copySlice_length ..
    have hl2 : s2.length = s1.length := zeroRange_length ..
    have hl3 : s3.length = s2.length := zeroRange_length ..
    have hsrclen : src.length = st.j - st.h := by
      rw [hsrc, seg_length]; omega
    have hjPlen : jP ≤ st.slice.length := by omega
    have hcont : ∀ k, k < st.j - st.h →
        lget s3 (hP + k) = lget st.slice (st.h + k) := by
      intro k hkk
      have hkjP : hP + k < jP := by omega
      rw [hs3, lget_zeroRange_left s2 jP s2.length (hP + k) hkjP]
      rw [hs2, lget_zeroRange_right s1 0 hP (hP + k) (by omega) (by omega) (by omega)]
      rw [hs1, lget_copySlice_mid st.slice hP jP src (hP + k)
        (by omega) (by omega) (by omega) (by omega)]
      have hkc : hP + k - hP = k := by omega
      rw [hkc, hsrc]
      exact lget_seg st.slice st.h (st.j - st.h) k hkk
    split
    case isTrue hempty =>
      refine ⟨⟨⟨?_, hwd, hlb, hmd0, hdm0, hml1⟩, ⟨?_, ?_, ?_, ?_, ?_, ?_⟩, ?_⟩,
        ⟨rfl, rfl, rfl, rfl, rfl, rfl, rfl, rfl, rfl, ?_, rfl, rfl⟩,
        ?_, ?_, ?_, ?_, ?_⟩
      · show s3.length = st.wsize + st.bsize * 2
        omega
      · show hP ≤ st.wsize
        omega
      · show st.wsize ≤ jP
        omega
      · show jP ≤ s3.length
        omega
      · show st.wsize - hP ≤ st.wsize
        omega
      · show jP - st.wsize ≤ st.bsize
        omega
      · show st.wsize ≤ st.wsize
        omega
      · intro hml
        show hP = st.wsize
        have := hlit hml
        omega
      · show s3.length = st.slice.length
        omega
      · show jP + n ≤ s3.length
        omega
      · show st.wsize - hP = st.i - st.h
        omega
      · show jP - st.wsize = st.j - st.i
        omega
      · show st.wsize ≤ st.wsize
        omega
      · exact hcont
    case isFalse hempty =>
      refine ⟨⟨⟨?_, hwd, hlb, hmd0, hdm0, hml1⟩, ⟨?_, ?_, ?_, ?_, ?_, ?_⟩, ?_⟩,
        ⟨rfl, rfl, rfl, rfl, rfl, rfl, rfl, rfl, rfl, ?_, ?_, ?_⟩,
        ?_, ?_, ?_, ?_, ?_⟩
      · show s3.length = st.wsize + st.bsize * 2
        omega
      · show hP ≤ st.wsize
        omega
      · show st.wsize ≤ jP
        omega
      · show jP ≤ s3.length
        omega
      · show st.wsize - hP ≤ st.wsize
        omega
      · show jP - st.wsize ≤ st.bsize
        omega
      · show st.wsize ≤ st.wsize
        omega
      · intro hml
        show hP = st.wsize
        have := hlit hml
        omega
      · show s3.length = st.slice.length
        omega
      · show (st.htLastByHash.map _).length = st.htLastByHash.length
        rw [List.length_map]
      · show (zeroRange (shift.shiftPrevLoop (zeroRange st.htPrevByIndex 0 hP)
          st.h st.i (st.h - hP) (st.wsize - hP) hP) st.wsize _).length =
          st.htPrevByIndex.length
        rw [zeroRange_length, shiftPrevLoop_length, zeroRange_length]
      · show jP + n ≤ s3.length
        omega
      · show st.wsize - hP = st.i - st.h
        omega
      · show jP - st.wsize = st.j - st.i
        omega
      · show st.wsize ≤ st.wsize
        omega
      · exact hcont

/-! ## Invariant preservation across the public operations -/

theorem inv_of_sameCore {a b : LZ77} (h : SameCore a b) (hb : Inv b) : Inv a := by
  obtain ⟨hs, hh, hi, hj, hbs, hws, hhm, hmin, hml, hmd, _, _, _, _, _⟩ := h
  unfold Inv ConfigWF IdxInv at hb ⊢
  rw [hs, hh, hi, hj, hbs, hws, hmin, hml, hmd]
  exact hb

theorem configWF_of_sameConfig {a b : LZ77} (h : SameConfig a b)
    (hb : ConfigWF b) : ConfigWF a := by
  obtain ⟨hbs, hws, hhm, hmin, hml, hmd, _, _, _, hsl, _, _⟩ := h
  unfold ConfigWF at hb ⊢
  rw [hbs, hws, hmin, hml, hmd, hsl]
  exact hb

/-- `Advance` on an empty buffer is a no-op in every mode and for every
hash function. -/
theorem advanceH_noop (hf : List Nat → Nat → Nat) (st : LZ77)
    (hij : st.i = st.j) : AdvanceH hf st = (([], 0, 0, false), st) := by
  have h1 : st.j < st.i + 1 := by omega
  unfold AdvanceH advanceByteH advanceNoHashH advanceStandardH
  by_cases hml : st.maxLen = 0 <;> by_cases hhb : st.hbits = 0 <;>
    simp [hml, hhb, h1]

/-- Bumping `j` while replacing the byte region by one of equal length
preserves the invariant, provided the new `j` stays within bounds. -/
theorem inv_bump_j {st : LZ77} (hInv : Inv st) (sl : List Nat) (dj : Nat)
    (hsl : sl.length = st.slice.length) (hj : st.j + dj ≤ st.slice.length)
    (hb : st.j - st.i + dj ≤ st.bsize) :
    Inv { st with slice := sl, j := st.j + dj } := by
  obtain ⟨⟨hlen, hwd, hlb, hmd0, hdm0, hml1⟩, ⟨ihi, iij, ijl, iwh, ibi, iwi⟩, hlit⟩ := hInv
  exact ⟨⟨by simp [hsl]; omega, hwd, hlb, hmd0, hdm0, hml1⟩,
    ⟨ihi, by simp; omega, by simp [hsl]; omega, iwh, by simp; omega, iwi⟩, hlit⟩

/-- Consuming buffered bytes (advancing `i` to `iP ≤ j` and `h` to
`max h (iP - maxDist)`) preserves the invariant. -/
theorem inv_consume {st : LZ77} (hInv : Inv st) (iP : Nat)
    (hiP : st.i ≤ iP) (hle : iP ≤ st.j) :
    Inv { st with
      h := if st.h < iP - st.maxDist then iP - st.maxDist else st.h, i := iP } := by
  obtain ⟨⟨hlen, hwd, hlb, hmd0, hdm0, hml1⟩, ⟨ihi, iij, ijl, iwh, ibi, iwi⟩, hlit⟩ := hInv
  refine ⟨⟨hlen, hwd, hlb, hmd0, hdm0, hml1⟩,
    ⟨?_, ?_, ijl, ?_, ?_, ?_⟩, ?_⟩ <;> simp
  · split <;> omega
  · omega
  · split <;> omega
  · omega
  · omega
  · intro hml
    have h1 := hlit hml
    have h2 := hmd0 hml
    split <;> omega

theorem applyOpH_inv (hf : List Nat → Nat → Nat) (st : LZ77) (op : LZOp)
    (hInv : Inv st) (hok : opOK st op) :
    Inv (applyOpH hf st op) ∧ SameConfig (applyOpH hf st op) st := by
  cases op with
  | writeByte ch =>
    show Inv (WriteByteH hf st ch).2 ∧ SameConfig (WriteByteH hf st ch).2 st
    unfold WriteByteH
    dsimp only
    split
    case isTrue => exact ⟨hInv, sameConfig_refl st⟩
    case isFalse hy =>
      obtain ⟨hInv1, hcfg1, hjn1, hwh1, hbi1, hwi1, hcont1⟩ :=
        shift_spec st 1 hInv (by omega)
      obtain ⟨-, ⟨-, -, -, -, ibi0, -⟩, -⟩ := hInv
      have hInv2 : Inv { shift st 1 with
          slice := (shift st 1).slice.set (shift st 1).j ch,
          j := (shift st 1).j + 1 } :=
        inv_bump_j hInv1 _ 1 (List.length_set ..) hjn1 (by
          obtain ⟨hc1, _⟩ := hcfg1
          rw [hbi1, hc1]
          omega)
      refine ⟨inv_of_sameCore (windowUpdateRegionH_sameCore ..) hInv2, ?_⟩
      refine sameConfig_trans (sameCore_sameConfig (windowUpdateRegionH_sameCore ..)) ?_
      refine sameConfig_trans ?_ hcfg1
      simp [SameConfig]
  | write data =>
    show Inv (WriteH hf st data).2 ∧ SameConfig (WriteH hf st data).2 st
    unfold WriteH
    dsimp only
    set y := st.bsize - (st.j - st.i) with hy
    set L := (if data.length > y then (y, data.take y, true)
      else (data.length, data, false)).1 with hL
    have hLy : L ≤ y := by rw [hL]; split <;> (dsimp only; omega)
    obtain ⟨hInv1, hcfg1, hjn1, hwh1, hbi1, hwi1, hcont1⟩ :=
      shift_spec st L hInv (by omega)
    obtain ⟨-, ⟨-, -, -, -, ibi0, -⟩, -⟩ := hInv
    have hInv2 : Inv { shift st L with
        slice := copySlice (shift st L).slice (shift st L).j ((shift st L).j + L)
          (if data.length > y then (y, data.take y, true)
            else (data.length, data, false)).2.1,
        j := (shift st L).j + L } :=
      inv_bump_j hInv1 _ L (copySlice_length ..) hjn1 (by
        obtain ⟨hc1, _⟩ := hcfg1
        rw [hbi1, hc1]
        omega)
    refine ⟨inv_of_sameCore (windowUpdateRegionH_sameCore ..) hInv2, ?_⟩
    refine sameConfig_trans (sameCore_sameConfig (windowUpdateRegionH_sameCore ..)) ?_
    refine sameConfig_trans ?_ hcfg1
    simp [SameConfig, copySlice_length]
  | prepareBulkWrite nn =>
    show Inv (PrepareBulkWrite st nn).2 ∧ SameConfig (PrepareBulkWrite st nn).2 st
    unfold PrepareBulkWrite
    dsimp only
    obtain ⟨hInv1, hcfg1, _⟩ := shift_spec st
      (if nn > st.bsize - (st.j - st.i) then st.bsize - (st.j - st.i) else nn)
      hInv (by split <;> omega)
    exact ⟨hInv1, hcfg1⟩
  | commitBulkWrite nn =>
    show Inv (CommitBulkWriteH hf st nn) ∧ SameConfig (CommitBulkWriteH hf st nn) st
    unfold CommitBulkWriteH
    dsimp only
    obtain ⟨hok1, hok2⟩ := hok
    have hib : st.j - st.i ≤ st.bsize := hInv.2.1.2.2.2.2.1
    have hInv2 : Inv { st with slice := st.slice, j := st.j + nn } :=
      inv_bump_j hInv st.slice nn rfl hok2 (by omega)
    refine ⟨inv_of_sameCore (windowUpdateRegionH_sameCore ..) hInv2, ?_⟩
    exact sameConfig_trans (sameCore_sameConfig (windowUpdateRegionH_sameCore ..))
      (by simp [SameConfig])
  | readByte =>
    show Inv (ReadByteH hf st).2 ∧ SameConfig (ReadByteH hf st).2 st
    unfold ReadByteH
    dsimp only
    split
    case isTrue => exact ⟨hInv, sameConfig_refl st⟩
    case isFalse hg =>
      have hInv2 := inv_consume hInv (st.i + 1) (by omega) (by omega)
      refine ⟨inv_of_sameCore (windowUpdateRegionH_sameCore ..) hInv2, ?_⟩
      exact sameConfig_trans (sameCore_sameConfig (windowUpdateRegionH_sameCore ..))
        (by simp [SameConfig])
  | read nn =>
    show Inv (ReadH hf st nn).2 ∧ SameConfig (ReadH hf st nn).2 st
    unfold ReadH
    dsimp only
    by_cases h0 : nn = 0
    · rw [if_pos h0]
      exact ⟨hInv, sameConfig_refl st⟩
    · rw [if_neg h0]
      set ln := if nn > st.bsize then st.bsize else nn with hln
      set iP := if st.i + ln > st.j then st.j else st.i + ln with hiP
      by_cases hz : iP - st.i = 0
      · rw [if_pos hz]
        exact ⟨hInv, sameConfig_refl st⟩
      · rw [if_neg hz]
        have hiij := hInv.2.1.2.1
        have hInv2 := inv_consume hInv iP
          (by rw [hiP]; split <;> omega) (by rw [hiP]; split <;> omega)
        refine ⟨inv_of_sameCore (windowUpdateRegionH_sameCore ..) hInv2, ?_⟩
        exact sameConfig_trans (sameCore_sameConfig (windowUpdateRegionH_sameCore ..))
          (by simp [SameConfig])
  | commitBulkRead nn =>
    show Inv (CommitBulkReadH hf st nn) ∧ SameConfig (CommitBulkReadH hf st nn) st
    unfold CommitBulkReadH
    dsimp only
    have hok1 : (if nn > st.bsize then st.bsize else nn) ≤ st.j - st.i := by
      have : min nn st.bsize ≤ st.j - st.i := hok
      rcases Nat.le_total nn st.bsize with h | h
      · rw [min_eq_left h] at this; split <;> omega
      · rw [min_eq_right h] at this; split <;> omega
    have hiij := hInv.2.1.2.1
    have hInv2 := inv_consume hInv (st.i + (if nn > st.bsize then st.bsize else nn))
      (by omega) (by omega)
    refine ⟨inv_of_sameCore (windowUpdateRegionH_sameCore ..) hInv2, ?_⟩
    exact sameConfig_trans (sameCore_sameConfig (windowUpdateRegionH_sameCore ..))
      (by simp [SameConfig])
  | advance =>
    show Inv (AdvanceH hf st).2 ∧ SameConfig (AdvanceH hf st).2 st
    rcases Nat.lt_or_ge st.i st.j with hne | hge
    · obtain ⟨L, hL1, hLj, hi, hh, hj, hs, hcfg, -⟩ := AdvanceH_spec hf st hInv hne
      obtain ⟨⟨hlen, hwd, hlb, hmd0, hdm0, hml1⟩,
        ⟨ihi, iij, ijl, iwh, ibi, iwi⟩, hlit⟩ := hInv
      refine ⟨⟨configWF_of_sameConfig hcfg ⟨hlen, hwd, hlb, hmd0, hdm0, hml1⟩,
        ⟨?_, ?_, ?_, ?_, ?_, ?_⟩, ?_⟩, hcfg⟩
      · rw [hi, hh]; omega
      · rw [hi, hj]; omega
      · rw [hj, hs]; omega
      · rw [hi, hh]; obtain ⟨-, hw, -⟩ := hcfg; rw [hw]; omega
      · rw [hi, hj]; obtain ⟨hb, -⟩ := hcfg; rw [hb]; omega
      · rw [hi]; obtain ⟨-, hw, -⟩ := hcfg; rw [hw]; omega
      · intro hml0
        obtain ⟨-, -, -, -, hmle, -⟩ := hcfg
        rw [hmle] at hml0
        rw [hi, hh]
        have h1 := hmd0 hml0
        have h2 := hlit hml0
        omega
    · have hiij2 := hInv.2.1.2.1
      have hij : st.i = st.j := by omega
      rw [show (AdvanceH hf st).2 = st from by rw [advanceH_noop hf st hij]]
      exact ⟨hInv, sameConfig_refl st⟩
  | setWindow data =>
    show Inv (SetWindowH hf st data) ∧ SameConfig (SetWindowH hf st data) st
    obtain ⟨⟨hlen, hwd, hlb, hmd0, hdm0, hml1⟩,
      ⟨ihi, iij, ijl, iwh, ibi, iwi⟩, hlit⟩ := hInv
    unfold SetWindowH
    dsimp only
    rcases Nat.lt_or_ge st.maxDist data.length with hgt | hle
    · rw [if_pos hgt]
      dsimp only
      refine ⟨inv_of_sameCore (windowUpdateRegionH_sameCore ..) ?_, ?_⟩
      · refine ⟨⟨?_, hwd, hlb, hmd0, hdm0, hml1⟩, ⟨?_, ?_, ?_, ?_, ?_, ?_⟩, ?_⟩ <;>
          simp [copySlice_length, zeroRange_length]
        · omega
        · omega
        · omega
        · omega
        · omega
        · omega
        · intro hml
          have h1 := hdm0 (hmd0 hml)
          have h2 := hmd0 hml
          omega
      · exact sameConfig_trans (sameCore_sameConfig (windowUpdateRegionH_sameCore ..))
          (by simp [SameConfig, copySlice_length, zeroRange_length])
    · rw [if_neg (by omega)]
      dsimp only
      refine ⟨inv_of_sameCore (windowUpdateRegionH_sameCore ..) ?_, ?_⟩
      · refine ⟨⟨?_, hwd, hlb, hmd0, hdm0, hml1⟩, ⟨?_, ?_, ?_, ?_, ?_, ?_⟩, ?_⟩ <;>
          simp [copySlice_length, zeroRange_length]
        · omega
        · omega
        · omega
        · omega
        · omega
        · omega
        · intro hml
          have h2 := hmd0 hml
          omega
      · exact sameConfig_trans (sameCore_sameConfig (windowUpdateRegionH_sameCore ..))
          (by simp [SameConfig, copySlice_length, zeroRange_length])
  | clear =>
    show Inv (Clear st) ∧ SameConfig (Clear st) st
    obtain ⟨⟨hlen, hwd, hlb, hmd0, hdm0, hml1⟩,
      ⟨ihi, iij, ijl, iwh, ibi, iwi⟩, hlit⟩ := hInv
    unfold Clear
    refine ⟨⟨⟨?_, hwd, hlb, hmd0, hdm0, hml1⟩, ⟨?_, ?_, ?_, ?_, ?_, ?_⟩, ?_⟩, ?_⟩ <;>
      simp [SameConfig]
    · omega
    · omega
  | windowClear =>
    show Inv (WindowClear st) ∧ SameConfig (WindowClear st) st
    obtain ⟨⟨hlen, hwd, hlb, hmd0, hdm0, hml1⟩,
      ⟨ihi, iij, ijl, iwh, ibi, iwi⟩, hlit⟩ := hInv
    unfold WindowClear
    refine ⟨⟨⟨?_, hwd, hlb, hmd0, hdm0, hml1⟩, ⟨?_, ?_, ?_, ?_, ?_, ?_⟩, ?_⟩, ?_⟩ <;>
      simp [SameConfig, zeroRange_length]
    · omega
    · omega
    · omega
    · omega
    · omega

/-! ## Reachable states satisfy the invariant -/

theorem normConfig_wf (o : LZ77Options) :
    (normConfig o).2.1 ≤ 1 <<< o.BufferNumBits ∧
    (normConfig o).2.2.1 ≤ 1 <<< o.WindowNumBits ∧
    ((normConfig o).2.1 = 0 → (normConfig o).2.2.1 = 0) ∧
    ((normConfig o).2.2.1 = 0 → (normConfig o).2.1 = 0) ∧
    ((normConfig o).2.1 ≠ 0 → 1 ≤ (normConfig o).1) := by
  unfold normConfig
  dsimp only
  set bsize := 1 <<< o.BufferNumBits with hbs
  set wsize := 1 <<< o.WindowNumBits with hws
  set maxLen0 := if o.HasMaxMatchLength = true then min o.MaxMatchLength bsize
    else bsize with hml0
  set minLen0 := if o.HasMinMatchLength = true then o.MinMatchLength
    else hashLen with hmin0
  set maxDist0 := if o.HasMaxMatchDistance = true then min o.MaxMatchDistance wsize
    else wsize with hmd0
  have hml0b : maxLen0 ≤ bsize := by
    rw [hml0]; split
    · exact min_le_right _ _
    · exact Nat.le_refl _
  have hmd0w : maxDist0 ≤ wsize := by
    rw [hmd0]; split
    · exact min_le_right _ _
    · exact Nat.le_refl _
  by_cases hz : maxLen0 = 0 ∨ maxDist0 = 0
  · rw [if_pos hz]
    simp
  · rw [if_neg hz]
    push_neg at hz
    dsimp only
    by_cases hm0 : minLen0 = 0 ∧ maxLen0 ≠ 0
    · rw [if_pos hm0]
      refine ⟨hml0b, hmd0w, ?_, ?_, ?_⟩ <;> intro hx <;> omega
    · rw [if_neg hm0]
      refine ⟨hml0b, hmd0w, ?_, ?_, ?_⟩ <;> intro hx <;> omega

theorem Init_maxLen (o : LZ77Options) : (Init o).maxLen = (normConfig o).2.1 := rfl

theorem Init_minLen (o : LZ77Options) : (Init o).minLen = (normConfig o).1 := rfl

theorem Init_maxDist (o : LZ77Options) :
    (Init o).maxDist = (normConfig o).2.2.1 := rfl

theorem Init_slice_length (o : LZ77Options) :
    (Init o).slice.length = (1 <<< o.WindowNumBits) + (1 <<< o.BufferNumBits) * 2 := by
  show (List.replicate _ (0:Nat)).length = _
  rw [List.length_replicate]

theorem Init_inv (o : LZ77Options) (hok : InitOK o) : Inv (Init o) := by
  obtain ⟨hb2, hb30, hw30, hh32, hminb, hmlml⟩ := hok
  obtain ⟨f1, f2, f3, f4, f5⟩ := normConfig_wf o
  refine ⟨⟨?_, ?_, ?_, ?_, ?_, ?_⟩, ⟨?_, ?_, ?_, ?_, ?_, ?_⟩, ?_⟩
  · rw [Init_slice_length]; rfl
  · rw [Init_maxDist]; exact f2
  · rw [Init_maxLen]; exact f1
  · rw [Init_maxLen, Init_maxDist]; exact f3
  · rw [Init_maxLen, Init_maxDist]; exact f4
  · rw [Init_maxLen, Init_minLen]; exact f5
  · exact Nat.le_refl _
  · exact Nat.le_refl _
  · rw [Init_slice_length]
    show 1 <<< o.WindowNumBits ≤ _
    omega
  · show (1 <<< o.WindowNumBits : Nat) - (1 <<< o.WindowNumBits) ≤ _
    omega
  · show (1 <<< o.WindowNumBits : Nat) - (1 <<< o.WindowNumBits) ≤ _
    omega
  · exact Nat.le_refl _
  · intro _; rfl

theorem reachable_inv {o : LZ77Options} {st : LZ77} (h : Reachable o st) :
    Inv st := by
  induction h with
  | init hok => exact Init_inv o hok
  | step hr hok ih => exact (applyOpH_inv hash4 _ _ ih hok).1

theorem reachable_sameConfig {o : LZ77Options} {st : LZ77} (h : Reachable o st) :
    SameConfig st (Init o) := by
  induction h with
  | init _ => exact sameConfig_refl _
  | step hr hok ih =>
    exact sameConfig_trans (applyOpH_inv hash4 _ _ (reachable_inv hr) hok).2 ih

/-- C4: after `Init` and after every public operation, the indices
satisfy `h ≤ i ≤ j ≤ h + windowSize + bufferSize`, `i - h ≤ windowSize`
and `j - i ≤ bufferSize`. -/
theorem reachable_index_invariants {o : LZ77Options} {st : LZ77}
    (h : Reachable o st) :
    st.h ≤ st.i ∧ st.i ≤ st.j ∧ st.j ≤ st.h + st.wsize + st.bsize ∧
    st.i - st.h ≤ st.wsize ∧ st.j - st.i ≤ st.bsize := by
  obtain ⟨-, ⟨ihi, iij, -, iwh, ibi, -⟩, -⟩ := reachable_inv h
  exact ⟨ihi, iij, by omega, iwh, ibi⟩

theorem reachable_index_invariants_witness :
    (runOps (Init scOpts) [LZOp.write scData]).h ≤
      (runOps (Init scOpts) [LZOp.write scData]).i ∧
    (runOps (Init scOpts) [LZOp.write scData]).i ≤
      (runOps (Init scOpts) [LZOp.write scData]).j ∧
    (runOps (Init scOpts) [LZOp.write scData]).j ≤
      (runOps (Init scOpts) [LZOp.write scData]).h +
      (runOps (Init scOpts) [LZOp.write scData]).wsize +
      (runOps (Init scOpts) [LZOp.write scData]).bsize ∧
    (runOps (Init scOpts) [LZOp.write scData]).i -
      (runOps (Init scOpts) [LZOp.write scData]).h ≤
      (runOps (Init scOpts) [LZOp.write scData]).wsize ∧
    (runOps (Init scOpts) [LZOp.write scData]).j -
      (runOps (Init scOpts) [LZOp.write scData]).i ≤
      (runOps (Init scOpts) [LZOp.write scData]).bsize :=
  reachable_index_invariants
    (reachable_runOps (.init (by decide)) [LZOp.write scData] (by decide))

theorem seg_take_one (l : List Nat) (i : Nat) (h : i < l.length) :
    (l.drop i).take 1 = [lget l i] := by
  apply list_eq_of_lget
  · rw [seg_length]; simp; omega
  · intro k hk
    rw [seg_length] at hk
    have hk0 : k = 0 := by omega
    subst hk0
    rw [lget_seg l i 1 0 (by omega)]
    rfl

/-- C10: when `Init` normalizes the configuration to literal-only mode
(`maxLen = 0`), the window stays empty after every public operation,
`Advance` on a non-empty buffer emits exactly one literal byte and moves
`h` together with `i`, and `SetWindow` keeps zero bytes. -/
theorem literal_mode_window_empty {o : LZ77Options} {st : LZ77}
    (h : Reachable o st) (hLit : (Init o).maxLen = 0) (d : List Nat) :
    st.h = st.i ∧ WindowLen st = 0 ∧
    (st.i < st.j →
      (Advance st).1 = ([lget st.slice st.i], 0, 0, false) ∧
      (Advance st).2.i = st.i + 1 ∧ (Advance st).2.h = st.i + 1) ∧
    WindowLen (SetWindow st d) = 0 := by
  have hInv := reachable_inv h
  have hcfg := reachable_sameConfig h
  have hml : st.maxLen = 0 := by
    obtain ⟨-, -, -, -, hm, -⟩ := hcfg
    rw [hm, hLit]
  have hmd : st.maxDist = 0 := hInv.1.2.2.2.1 hml
  have hhi : st.h = st.i := hInv.2.2 hml
  have hijl : st.j ≤ st.slice.length := hInv.2.1.2.2.1
  refine ⟨hhi, by unfold WindowLen; omega, ?_, ?_⟩
  · intro hij
    have hdisp : Advance st = advanceByteH hash4 st := by
      unfold Advance AdvanceH
      rw [if_pos hml]
    obtain ⟨bi, bh, bj, bs, bcfg, bres⟩ := advanceByteH_spec hash4 st hij
    rw [hdisp, bres, bi, bh]
    refine ⟨?_, rfl, ?_⟩
    · rw [seg_take_one st.slice st.i (by omega)]
    · rw [hmd]
      exact max_eq_right (by omega)
  · unfold SetWindow SetWindowH
    dsimp only
    rcases Nat.eq_zero_or_pos d.length with hd0 | hdpos
    · rw [if_neg (by omega)]
      dsimp only
      unfold WindowLen
      rw [windowUpdateRegionH_i, windowUpdateRegionH_h]
      dsimp only
      omega
    · rw [if_pos (by omega)]
      dsimp only
      unfold WindowLen
      rw [windowUpdateRegionH_i, windowUpdateRegionH_h]
      dsimp only
      omega

/-! ## Round-trip machinery -/

theorem lget_append_left (A B : List Nat) (k : Nat) (hk : k < A.length) :
    lget (A ++ B) k = lget A k := by
  rw [lget_eq_getElem?, lget_eq_getElem?, List.getElem?_append, if_pos hk]

theorem lget_append_right (A B : List Nat) (k : Nat) (hk : A.length ≤ k) :
    lget (A ++ B) k = lget B (k - A.length) := by
  rw [lget_eq_getElem?, lget_eq_getElem?, List.getElem?_append,
    if_neg (by omega)]

theorem lget_take (l : List Nat) (n m : Nat) (hm : m < n) :
    lget (l.take n) m = lget l m := by
  rw [lget_eq_getElem?, lget_eq_getElem?, List.getElem?_take, if_pos hm]

theorem seg_cons (S : List Nat) (i n : Nat) (hi : i < S.length) :
    (S.drop i).take (n + 1) = lget S i :: (S.drop (i + 1)).take n := by
  rw [List.drop_eq_getElem_cons hi, List.take_succ_cons, lget_eq_getElem _ _ hi]

theorem seg_split (S : List Nat) (a L n : Nat) :
    (S.drop a).take (L + n) = (S.drop a).take L ++ (S.drop (a + L)).take n := by
  rw [List.take_add, List.drop_drop]

theorem expandMatch_length (d : Nat) :
    ∀ (L : Nat) (E : List Nat), (expandMatch d L E).length = E.length + L := by
  intro L
  induction L with
  | zero => intro E; rfl
  | succ L ih =>
    intro E
    show (expandMatch d L (E ++ [lget E (E.length - d)])).length = _
    rw [ih, List.length_append]
    simp only [List.length_cons, List.length_nil]
    omega

theorem expandMatch_eq (S : List Nat) (d : Nat) :
    ∀ (L i : Nat) (E : List Nat),
    1 ≤ d → d ≤ i → d ≤ E.length → i + L ≤ S.length →
    (∀ m, m < L → lget S (i - d + m) = lget S (i + m)) →
    (∀ dd, 1 ≤ dd → dd ≤ d → lget S (i - dd) = lget E (E.length - dd)) →
    expandMatch d L E = E ++ (S.drop i).take L := by
  intro L
  induction L with
  | zero => intro i E _ _ _ _ _ _; simp [expandMatch]
  | succ L ih =>
    intro i E hd1 hdi hdE hiL hbytes hwin
    show expandMatch d L (E ++ [lget E (E.length - d)]) = _
    have hEd : lget E (E.length - d) = lget S i := by
      have h1 := hwin d hd1 (Nat.le_refl d)
      have h2 : lget S (i - d) = lget S i := by
        have h3 := hbytes 0 (by omega)
        simpa using h3
      rw [← h1]
      exact h2
    rw [hEd]
    have hrec := ih (i + 1) (E ++ [lget S i]) hd1 (by omega)
      (by simp; omega) (by omega)
      (by
        intro m hm
        have := hbytes (m + 1) (by omega)
        have he1 : i + 1 - d + m = i - d + (m + 1) := by omega
        have he2 : i + 1 + m = i + (m + 1) := by omega
        rw [he1, he2]
        exact this)
      (by
        intro dd hdd1 hddd
        have hlen : (E ++ [lget S i]).length = E.length + 1 := by simp
        rcases Nat.eq_or_lt_of_le hdd1 with h1 | h1
        · have hdd : dd = 1 := h1.symm
          subst hdd
          rw [hlen]
          have hidx : E.length + 1 - 1 = E.length := by omega
          rw [hidx, lget_append_right E _ E.length (Nat.le_refl _), Nat.sub_self]
          have hii : i + 1 - 1 = i := by omega
          rw [hii]
          rfl
        · have hwo := hwin (dd - 1) (by omega) (by omega)
          rw [hlen]
          have hidx : E.length + 1 - dd = E.length - (dd - 1) := by omega
          rw [hidx, lget_append_left E _ _ (by omega)]
          rw [← hwo]
          congr 1
          omega)
    rw [hrec, seg_cons S i L (by omega), List.append_assoc]
    rfl

theorem write_core_spec (hf : List Nat → Nat → Nat) (st : LZ77)
    (data' : List Nat) (L : Nat) (hInv : Inv st)
    (hLy : L ≤ st.bsize - (st.j - st.i)) (hdlen : data'.length = L) :
    Inv (windowUpdateRegionH hf { shift st L with
      slice := copySlice (shift st L).slice (shift st L).j ((shift st L).j + L) data',
      j := (shift st L).j + L } ((shift st L).j - hashLenSubOne)) ∧
    SameConfig (windowUpdateRegionH hf { shift st L with
      slice := copySlice (shift st L).slice (shift st L).j ((shift st L).j + L) data',
      j := (shift st L).j + L } ((shift st L).j - hashLenSubOne)) st ∧
    (windowUpdateRegionH hf { shift st L with
      slice := copySlice (shift st L).slice (shift st L).j ((shift st L).j + L) data',
      j := (shift st L).j + L } ((shift st L).j - hashLenSubOne)).i -
      (windowUpdateRegionH hf { shift st L with
      slice := copySlice (shift st L).slice (shift st L).j ((shift st L).j + L) data',
      j := (shift st L).j + L } ((shift st L).j - hashLenSubOne)).h = st.i - st.h ∧
    (windowUpdateRegionH hf { shift st L with
      slice := copySlice (shift st L).slice (shift st L).j ((shift st L).j + L) data',
      j := (shift st L).j + L } ((shift st L).j - hashLenSubOne)).j -
      (windowUpdateRegionH hf { shift st L with
      slice := copySlice (shift st L).slice (shift st L).j ((shift st L).j + L) data',
      j := (shift st L).j + L } ((shift st L).j - hashLenSubOne)).i =
      (st.j - st.i) + L ∧
    (∀ k, k < st.j - st.h + L →
      lget (windowUpdateRegionH hf { shift st L with
        slice := copySlice (shift st L).slice (shift st L).j ((shift st L).j + L) data',
        j := (shift st L).j + L } ((shift st L).j - hashLenSubOne)).slice
        ((windowUpdateRegionH hf { shift st L with
        slice := copySlice (shift st L).slice (shift st L).j ((shift st L).j + L) data',
        j := (shift st L).j + L } ((shift st L).j - hashLenSubOne)).h + k) =
        if k < st.j - st.h then lget st.slice (st.h + k)
        else lget data' (k - (st.j - st.h))) ∧
    BufferBytesView (windowUpdateRegionH hf { shift st L with
      slice := copySlice (shift st L).slice (shift st L).j ((shift st L).j + L) data',
      j := (shift st L).j + L } ((shift st L).j - hashLenSubOne)) =
      BufferBytesView st ++ data' := by
  obtain ⟨hInv1, hcfg1, hjn1, hwh1, hbi1, hwi1, hcont1⟩ := shift_spec st L hInv hLy
  have ihi0 : st.h ≤ st.i := hInv.2.1.1
  have iij0 : st.i ≤ st.j := hInv.2.1.2.1
  have ijl0 : st.j ≤ st.slice.length := hInv.2.1.2.2.1
  have ibi0 : st.j - st.i ≤ st.bsize := hInv.2.1.2.2.2.2.1
  have i1hi : (shift st L).h ≤ (shift st L).i := hInv1.2.1.1
  have i1ij : (shift st L).i ≤ (shift st L).j := hInv1.2.1.2.1
  have i1jl : (shift st L).j ≤ (shift st L).slice.length := hInv1.2.1.2.2.1
  have hbs1 : (shift st L).bsize = st.bsize := hcfg1.1
  have hjh1 : (shift st L).j - (shift st L).h = st.j - st.h := by omega
  have hInv2 : Inv { shift st L with
      slice := copySlice (shift st L).slice (shift st L).j ((shift st L).j + L) data',
      j := (shift st L).j + L } :=
    inv_bump_j hInv1 _ L (copySlice_length ..) hjn1 (by rw [hbi1, hbs1]; omega)
  have hcontent : ∀ k, k < st.j - st.h + L →
      lget (copySlice (shift st L).slice (shift st L).j ((shift st L).j + L) data')
        ((shift st L).h + k) =
        if k < st.j - st.h then lget st.slice (st.h + k)
        else lget data' (k - (st.j - st.h)) := by
    intro k hk
    rcases Nat.lt_or_ge k (st.j - st.h) with hklt | hkge
    · rw [if_pos hklt,
        lget_copySlice_left _ _ _ _ _ (show (shift st L).h + k < (shift st L).j by omega)]
      exact hcont1 k hklt
    · rw [if_neg (by omega),
        lget_copySlice_mid (shift st L).slice (shift st L).j ((shift st L).j + L)
          data' ((shift st L).h + k) (by omega) (by omega)
          (by rw [hdlen]; omega) (by omega)]
      congr 1
      omega
  refine ⟨inv_of_sameCore (windowUpdateRegionH_sameCore ..) hInv2,
    sameConfig_trans (sameCore_sameConfig (windowUpdateRegionH_sameCore ..))
      (sameConfig_trans (by simp [SameConfig, copySlice_length]) hcfg1),
    ?_, ?_, ?_, ?_⟩
  · rw [windowUpdateRegionH_i, windowUpdateRegionH_h]
    dsimp only
    omega
  · rw [windowUpdateRegionH_j, windowUpdateRegionH_i]
    dsimp only
    omega
  · intro k hk
    rw [windowUpdateRegionH_slice, windowUpdateRegionH_h]
    dsimp only
    exact hcontent k hk
  · unfold BufferBytesView
    rw [windowUpdateRegionH_slice, windowUpdateRegionH_i, windowUpdateRegionH_j]
    dsimp only
    apply list_eq_of_lget
    · rw [seg_length, List.length_append, seg_length, copySlice_length, hdlen]
      omega
    · intro m hm
      rw [seg_length, copySlice_length] at hm
      have hm2 : m < (st.j - st.i) + L := by omega
      rw [lget_seg _ _ _ _ (by omega)]
      have hpos : (shift st L).i + m = (shift st L).h + ((st.i - st.h) + m) := by omega
      rw [hpos, hcontent ((st.i - st.h) + m) (by omega)]
      rcases Nat.lt_or_ge m (st.j - st.i) with hmlt | hmge
      · rw [if_pos (by omega),
          lget_append_left _ _ _ (by rw [seg_length]; omega),
          lget_seg _ _ _ _ (by omega)]
        congr 1
        omega
      · rw [if_neg (by omega),
          lget_append_right _ _ _ (by rw [seg_length]; omega)]
        congr 1
        rw [seg_length]
        omega

theorem WriteH_spec (hf : List Nat → Nat → Nat) (st : LZ77) (data : List Nat)
    (hInv : Inv st) :
    (WriteH hf st data).1 =
      (min data.length (st.bsize - (st.j - st.i)),
       decide (st.bsize - (st.j - st.i) < data.length)) ∧
    Inv (WriteH hf st data).2 ∧
    SameConfig (WriteH hf st data).2 st ∧
    (WriteH hf st data).2.i - (WriteH hf st data).2.h = st.i - st.h ∧
    (WriteH hf st data).2.j - (WriteH hf st data).2.i =
      (st.j - st.i) + min data.length (st.bsize - (st.j - st.i)) ∧
    (∀ k, k < st.j - st.h + min data.length (st.bsize - (st.j - st.i)) →
      lget (WriteH hf st data).2.slice ((WriteH hf st data).2.h + k) =
        if k < st.j - st.h then lget st.slice (st.h + k)
        else lget data (k - (st.j - st.h))) ∧
    BufferBytesView (WriteH hf st data).2 =
      BufferBytesView st ++ data.take (st.bsize - (st.j - st.i)) := by
  have hfree : st.j - st.i ≤ st.bsize := hInv.2.1.2.2.2.2.1
  unfold WriteH
  dsimp only
  by_cases hgt : data.length > st.bsize - (st.j - st.i)
  · rw [if_pos hgt]
    dsimp only
    obtain ⟨w1, w2, w3, w4, w5, w6⟩ :=
      write_core_spec hf st (data.take (st.bsize - (st.j - st.i)))
        (st.bsize - (st.j - st.i)) hInv (Nat.le_refl _)
        (by rw [List.length_take]; omega)
    refine ⟨?_, w1, w2, w3, ?_, ?_, w6⟩
    · rw [min_eq_right (Nat.le_of_lt hgt), decide_eq_true hgt]
    · rw [w4, min_eq_right (Nat.le_of_lt hgt)]
    · intro k hk
      rw [min_eq_right (Nat.le_of_lt hgt)] at hk
      rw [w5 k hk]
      rcases Nat.lt_or_ge k (st.j - st.h) with hklt | hkge
      · rw [if_pos hklt, if_pos hklt]
      · rw [if_neg (by omega), if_neg (by omega), lget_take _ _ _ (by omega)]
  · rw [if_neg hgt]
    dsimp only
    obtain ⟨w1, w2, w3, w4, w5, w6⟩ :=
      write_core_spec hf st data data.length hInv (by omega) rfl
    refine ⟨?_, w1, w2, w3, ?_, ?_, ?_⟩
    · rw [min_eq_left (by omega), decide_eq_false (by omega)]
    · rw [w4, min_eq_left (by omega)]
    · intro k hk
      rw [min_eq_left (by omega)] at hk
      exact w5 k hk
    · rw [w6, List.take_of_length_le (by omega)]

/-- C3 (amended): `Write(data)` accepts `count = min (len data) free` bytes,
where `free = bufferSize - (j - i)`, appends exactly that prefix of `data`
to the buffer, and reports `Full` exactly when `len data > free` — even
when some bytes were accepted. -/
theorem write_count_full_iff (st : LZ77) (data : List Nat) (hInv : Inv st) :
    (Write st data).1.1 = min data.length (st.bsize - bufLen st) ∧
    ((Write st data).1.2 = true ↔ st.bsize - bufLen st < data.length) ∧
    BufferBytesView (Write st data).2 =
      BufferBytesView st ++ data.take (st.bsize - bufLen st) := by
  obtain ⟨hres, _, _, _, _, _, hbuf⟩ := WriteH_spec hash4 st data hInv
  unfold Write bufLen
  refine ⟨?_, ?_, hbuf⟩
  · rw [hres]
  · rw [hres]
    simp

theorem write_count_full_iff_witness :
    Inv (Init fullOpts) ∧
    ((Write (Init fullOpts) [10, 20, 30, 40, 50]).1.1 =
        min ([10, 20, 30, 40, 50] : List Nat).length
          ((Init fullOpts).bsize - bufLen (Init fullOpts)) ∧
     ((Write (Init fullOpts) [10, 20, 30, 40, 50]).1.2 = true ↔
        (Init fullOpts).bsize - bufLen (Init fullOpts) <
          ([10, 20, 30, 40, 50] : List Nat).length) ∧
     BufferBytesView (Write (Init fullOpts) [10, 20, 30, 40, 50]).2 =
       BufferBytesView (Init fullOpts) ++
         ([10, 20, 30, 40, 50] : List Nat).take
           ((Init fullOpts).bsize - bufLen (Init fullOpts))) :=
  ⟨Init_inv fullOpts (by decide),
   write_count_full_iff (Init fullOpts) [10, 20, 30, 40, 50]
     (Init_inv fullOpts (by decide))⟩

theorem Init_h (o : LZ77Options) : (Init o).h = 1 <<< o.WindowNumBits := rfl

theorem Init_i (o : LZ77Options) : (Init o).i = 1 <<< o.WindowNumBits := rfl

theorem Init_j (o : LZ77Options) : (Init o).j = 1 <<< o.WindowNumBits := rfl

/-- The round-trip invariant holds at a freshly initialized engine. -/
theorem rtinv_init (o : LZ77Options) (hok : InitOK o) : RTInv (Init o) [] [] := by
  refine ⟨Init_inv o hok, ?_, ?_, ?_⟩
  · rw [Init_i, Init_h]
    omega
  · intro dd hdd1 hdd2
    rw [Init_i, Init_h] at hdd2
    exact absurd hdd2 (by omega)
  · show ([] : List Nat) = [] ++ BufferBytesView (Init o)
    unfold BufferBytesView
    rw [Init_i, Init_j, Nat.sub_self, List.take_zero]
    rfl

/-- One round-trip step preserves the round-trip invariant: a `Write`
appends the accepted prefix to both the stream and the buffer, and an
`Advance` moves bytes from the buffer into the expanded output, whether
emitted as a literal span or as a back-reference expanded byte-at-a-time. -/
theorem rtStep_rtinv (hf : List Nat → Nat → Nat) (st : LZ77) (W E : List Nat)
    (op : RTOp) (hRT : RTInv st W E) :
    RTInv (rtStep hf (st, W, E) op).1 (rtStep hf (st, W, E) op).2.1
      (rtStep hf (st, W, E) op).2.2 := by
  obtain ⟨hInv, hwE, hwinE, hW⟩ := hRT
  have ihi0 : st.h ≤ st.i := hInv.2.1.1
  have iij0 : st.i ≤ st.j := hInv.2.1.2.1
  have ijl0 : st.j ≤ st.slice.length := hInv.2.1.2.2.1
  cases op with
  | write data =>
    show RTInv (WriteH hf st data).2 (W ++ data.take (WriteH hf st data).1.1) E
    obtain ⟨hres, w2, w3, w4, w5, w6, w7⟩ := WriteH_spec hf st data hInv
    have h2hi : (WriteH hf st data).2.h ≤ (WriteH hf st data).2.i := w2.2.1.1
    refine ⟨w2, ?_, ?_, ?_⟩
    · rw [w4]
      exact hwE
    · intro dd hdd1 hdd2
      rw [w4] at hdd2
      have hpos : (WriteH hf st data).2.i - dd =
          (WriteH hf st data).2.h + (st.i - st.h - dd) := by omega
      rw [hpos, w6 (st.i - st.h - dd) (by omega), if_pos (by omega)]
      have hpos2 : st.h + (st.i - st.h - dd) = st.i - dd := by omega
      rw [hpos2]
      exact hwinE dd hdd1 hdd2
    · have hco : (WriteH hf st data).1.1 =
          min data.length (st.bsize - (st.j - st.i)) := by rw [hres]
      have htk : data.take (min data.length (st.bsize - (st.j - st.i))) =
          data.take (st.bsize - (st.j - st.i)) := by
        rcases Nat.le_total data.length (st.bsize - (st.j - st.i)) with hle | hle
        · rw [min_eq_left hle, List.take_length, List.take_of_length_le hle]
        · rw [min_eq_right hle]
      rw [hco, htk, hW, w7, List.append_assoc]
  | advance =>
    show RTInv (AdvanceH hf st).2 W
      (if (AdvanceH hf st).1.2.2.2 then
        expandMatch (AdvanceH hf st).1.2.1 (AdvanceH hf st).1.2.2.1 E
      else E ++ (AdvanceH hf st).1.1)
    rcases Nat.lt_or_ge st.i st.j with hne | hge
    · obtain ⟨L, hL1, hLj, hi, hh, hj, hs, hcfg, hspan, hfalse, htrue⟩ :=
        AdvanceH_spec hf st hInv hne
      have hInv2 : Inv (AdvanceH hf st).2 :=
        (applyOpH_inv hf st .advance hInv trivial).1
      have hiL : st.i + L ≤ st.slice.length := by omega
      have hsegL : ((st.slice.drop st.i).take L).length = L := by
        rw [seg_length]
        omega
      have hE' : (if (AdvanceH hf st).1.2.2.2 then
            expandMatch (AdvanceH hf st).1.2.1 (AdvanceH hf st).1.2.2.1 E
          else E ++ (AdvanceH hf st).1.1) =
          E ++ (st.slice.drop st.i).take L := by
        cases hb : (AdvanceH hf st).1.2.2.2 with
        | false =>
          simp only [Bool.false_eq_true, if_false]
          rw [hspan]
        | true =>
          obtain ⟨hLe, hd1, hdih, hminL, hLji, hbytes⟩ := htrue hb
          rw [if_pos rfl, hLe]
          exact expandMatch_eq st.slice (AdvanceH hf st).1.2.1 L st.i E hd1
            (by omega) (by omega) hiL hbytes
            (fun dd h1 h2 => hwinE dd h1 (by omega))
      rw [hE']
      refine ⟨hInv2, ?_, ?_, ?_⟩
      · rw [hi, hh, List.length_append, hsegL]
        omega
      · intro dd hdd1 hdd2
        rw [hi, hh] at hdd2
        rw [hs, hi, List.length_append, hsegL]
        rcases Nat.lt_or_ge L dd with hddL | hddL
        · rw [lget_append_left E _ _ (by omega)]
          have hidx1 : st.i + L - dd = st.i - (dd - L) := by omega
          have hidx2 : E.length + L - dd = E.length - (dd - L) := by omega
          rw [hidx1, hidx2]
          exact hwinE (dd - L) (by omega) (by omega)
        · rw [lget_append_right E _ _ (by omega)]
          have hidx : E.length + L - dd - E.length = L - dd := by omega
          rw [hidx, lget_seg st.slice st.i L (L - dd) (by omega)]
          congr 1
          omega
      · rw [hW]
        unfold BufferBytesView
        rw [hs, hi, hj, List.append_assoc]
        congr 1
        have hsplit : st.j - st.i = L + (st.j - (st.i + L)) := by omega
        rw [hsplit, seg_split]
    · have hij : st.i = st.j := by omega
      rw [advanceH_noop hf st hij]
      dsimp only
      simpa using ⟨hInv, hwE, hwinE, hW⟩

/-- Folding round-trip steps preserves the invariant. -/
theorem foldl_rtStep_rtinv (hf : List Nat → Nat → Nat) (ops : List RTOp) :
    ∀ s : LZ77 × List Nat × List Nat, RTInv s.1 s.2.1 s.2.2 →
      RTInv (ops.foldl (rtStep hf) s).1 (ops.foldl (rtStep hf) s).2.1
        (ops.foldl (rtStep hf) s).2.2 := by
  induction ops with
  | nil => intro s h; exact h
  | cons op ops ih =>
    intro s h
    rw [List.foldl_cons]
    obtain ⟨st, W, E⟩ := s
    exact ih _ (rtStep_rtinv hf st W E op h)

/-- The round-trip invariant holds after any run of writes and advances
from a valid initial configuration. -/
theorem runRT_rtinv (hf : List Nat → Nat → Nat) (o : LZ77Options)
    (hok : InitOK o) (ops : List RTOp) :
    RTInv (runRT hf o ops).1 (runRT hf o ops).2.1 (runRT hf o ops).2.2 :=
  foldl_rtStep_rtinv hf ops (Init o, [], []) (rtinv_init o hok)

/-- C1: round-trip.  For every valid engine configuration, every four-byte
mixer, and every interleaving of `Write` and `Advance` calls, once the
buffer is empty (`i = j`) the expanded output `E` — the concatenation of
the spans returned by the successive `Advance` calls, each matched
`(distance, length)` result expanded by copying byte-at-a-time from
`distance` bytes back in the accumulated output — equals the byte stream
accepted by the writes, in FIFO order. -/
theorem advance_roundtrip (hf : List Nat → Nat → Nat) (o : LZ77Options)
    (ops : List RTOp) (hok : InitOK o)
    (hempty : (runRT hf o ops).1.i = (runRT hf o ops).1.j) :
    (runRT hf o ops).2.2 = (runRT hf o ops).2.1 := by
  obtain ⟨hInv, hwE, hwinE, hW⟩ := runRT_rtinv hf o hok ops
  rw [hW]
  unfold BufferBytesView
  rw [hempty, Nat.sub_self, List.take_zero, List.append_nil]

theorem advance_roundtrip_witness :
    InitOK scOpts ∧
    (runRT hash4 scOpts rtOps1).1.i = (runRT hash4 scOpts rtOps1).1.j ∧
    (runRT hash4 scOpts rtOps1).2.2 = (runRT hash4 scOpts rtOps1).2.1 :=
  ⟨by decide, by decide,
   advance_roundtrip hash4 scOpts rtOps1 (by decide) (by decide)⟩

/-- Core of `SetWindow`: after clearing `[0, i - kept)`, copying the kept
bytes into `[i - kept, i)`, zeroing the hash tables, and re-running
`windowUpdateRegion` from the new `h`, the index `i` is unchanged, `h`
equals `i - kept`, and the window view is exactly the kept bytes. -/
theorem setWindow_core (hf : List Nat → Nat → Nat) (st : LZ77)
    (data' : List Nat) (kept : Nat) (hInv : Inv st)
    (hdlen : data'.length = kept) (hkept : kept ≤ st.maxDist) :
    (windowUpdateRegionH hf { st with
      h := st.i - kept,
      slice := copySlice (zeroRange st.slice 0 (st.i - kept)) (st.i - kept) st.i data',
      htLastByHash := List.replicate st.htLastByHash.length 0,
      htPrevByIndex := List.replicate st.htPrevByIndex.length 0 }
      (st.i - kept)).i = st.i ∧
    (windowUpdateRegionH hf { st with
      h := st.i - kept,
      slice := copySlice (zeroRange st.slice 0 (st.i - kept)) (st.i - kept) st.i data',
      htLastByHash := List.replicate st.htLastByHash.length 0,
      htPrevByIndex := List.replicate st.htPrevByIndex.length 0 }
      (st.i - kept)).h = st.i - kept ∧
    WindowBytesView (windowUpdateRegionH hf { st with
      h := st.i - kept,
      slice := copySlice (zeroRange st.slice 0 (st.i - kept)) (st.i - kept) st.i data',
      htLastByHash := List.replicate st.htLastByHash.length 0,
      htPrevByIndex := List.replicate st.htPrevByIndex.length 0 }
      (st.i - kept)) = data' := by
  have hmdw : st.maxDist ≤ st.wsize := hInv.1.2.1
  have hwi : st.wsize ≤ st.i := hInv.2.1.2.2.2.2.2
  have iij0 : st.i ≤ st.j := hInv.2.1.2.1
  have ijl0 : st.j ≤ st.slice.length := hInv.2.1.2.2.1
  have hki : kept ≤ st.i := by omega
  refine ⟨?_, ?_, ?_⟩
  · rw [windowUpdateRegionH_i]
  · rw [windowUpdateRegionH_h]
  · unfold WindowBytesView
    rw [windowUpdateRegionH_slice, windowUpdateRegionH_i, windowUpdateRegionH_h]
    dsimp only
    apply list_eq_of_lget
    · rw [seg_length, copySlice_length, zeroRange_length, hdlen]
      omega
    · intro m hm
      rw [seg_length, copySlice_length, zeroRange_length] at hm
      have hm2 : m < kept := by omega
      rw [lget_seg _ _ _ _ (by omega),
        lget_copySlice_mid (zeroRange st.slice 0 (st.i - kept)) (st.i - kept)
          st.i data' (st.i - kept + m) (by rw [zeroRange_length]; omega)
          (by omega) (by rw [hdlen]; omega) (by rw [zeroRange_length]; omega)]
      congr 1
      omega

/-- C6: `SetWindow(d)` leaves `i` unchanged, keeps exactly the last
`min (len d) maxDist` bytes of `d` as the new window (`h = i - kept`, and
`WindowBytesView` afterwards returns exactly those bytes), and the hash
index is reset and rebuilt from the newly-set window alone: the result
does not depend on the prior contents of the hash-chain arrays. -/
theorem setWindow_keeps_last_bytes (hf : List Nat → Nat → Nat) (st : LZ77)
    (d : List Nat) (hInv : Inv st) (A B : List Nat)
    (hA : A.length = st.htLastByHash.length)
    (hB : B.length = st.htPrevByIndex.length) :
    (SetWindowH hf st d).i = st.i ∧
    (SetWindowH hf st d).h = st.i - min d.length st.maxDist ∧
    WindowBytesView (SetWindowH hf st d) = d.drop (d.length - st.maxDist) ∧
    SetWindowH hf { st with htLastByHash := A, htPrevByIndex := B } d =
      SetWindowH hf st d := by
  unfold SetWindowH
  dsimp only
  by_cases hgt : d.length > st.maxDist
  · rw [if_pos hgt]
    dsimp only
    obtain ⟨c1, c2, c3⟩ := setWindow_core hf st (d.drop (d.length - st.maxDist))
      st.maxDist hInv (by rw [List.length_drop]; omega) (Nat.le_refl _)
    refine ⟨c1, ?_, c3, ?_⟩
    · rw [c2, min_eq_right (Nat.le_of_lt hgt)]
    · rw [hA, hB]
  · rw [if_neg hgt]
    dsimp only
    obtain ⟨c1, c2, c3⟩ := setWindow_core hf st d d.length hInv rfl (by omega)
    refine ⟨c1, ?_, ?_, ?_⟩
    · rw [c2, min_eq_left (by omega)]
    · rw [c3, Nat.sub_eq_zero_of_le (by omega), List.drop_zero]
    · rw [hA, hB]

theorem setWindow_keeps_last_bytes_witness :
    Inv (Init scOpts) ∧
    (List.replicate 256 7).length = (Init scOpts).htLastByHash.length ∧
    (List.replicate 40 5).length = (Init scOpts).htPrevByIndex.length ∧
    ((SetWindowH hash4 (Init scOpts) scData).i = (Init scOpts).i ∧
     (SetWindowH hash4 (Init scOpts) scData).h =
       (Init scOpts).i - min scData.length (Init scOpts).maxDist ∧
     WindowBytesView (SetWindowH hash4 (Init scOpts) scData) =
       scData.drop (scData.length - (Init scOpts).maxDist) ∧
     SetWindowH hash4 { Init scOpts with
         htLastByHash := List.replicate 256 7,
         htPrevByIndex := List.replicate 40 5 } scData =
       SetWindowH hash4 (Init scOpts) scData) :=
  ⟨Init_inv scOpts (by decide), by decide, by decide,
   setWindow_keeps_last_bytes hash4 (Init scOpts) scData
     (Init_inv scOpts (by decide)) (List.replicate 256 7) (List.replicate 40 5)
     (by decide) (by decide)⟩

theorem literal_mode_window_empty_witness :
    (runOps (Init litOpts) [LZOp.write [7, 8, 9]]).h =
      (runOps (Init litOpts) [LZOp.write [7, 8, 9]]).i ∧
    WindowLen (runOps (Init litOpts) [LZOp.write [7, 8, 9]]) = 0 ∧
    ((runOps (Init litOpts) [LZOp.write [7, 8, 9]]).i <
        (runOps (Init litOpts) [LZOp.write [7, 8, 9]]).j →
      (Advance (runOps (Init litOpts) [LZOp.write [7, 8, 9]])).1 =
        ([lget (runOps (Init litOpts) [LZOp.write [7, 8, 9]]).slice
          (runOps (Init litOpts) [LZOp.write [7, 8, 9]]).i], 0, 0, false) ∧
      (Advance (runOps (Init litOpts) [LZOp.write [7, 8, 9]])).2.i =
        (runOps (Init litOpts) [LZOp.write [7, 8, 9]]).i + 1 ∧
      (Advance (runOps (Init litOpts) [LZOp.write [7, 8, 9]])).2.h =
        (runOps (Init litOpts) [LZOp.write [7, 8, 9]]).i + 1) ∧
    WindowLen (SetWindow (runOps (Init litOpts) [LZOp.write [7, 8, 9]]) [1, 2, 3]) = 0 :=
  literal_mode_window_empty
    (reachable_runOps (.init (by decide)) [LZOp.write [7, 8, 9]] (by decide))
    (by decide) [1, 2, 3]

end LZ
